import Mathlib

/-!
Verification development for the CC-Version-Guard protection and
version-switching engine (`src-tauri/src/commands/protector.rs`,
`switcher.rs`, `process.rs`).

The filesystem is modelled as an association list from paths to nodes.
A path is a list of components (one `String` per component; the list
`[]` stands for the filesystem root `/`).  File contents are byte/char
lists (`List Char`); the read-only attribute is a `Bool` on each node.
Every fallible filesystem primitive returns the (possibly mutated)
state together with an optional error message, mirroring the
`Result<_, String>` style of the Rust code.
-/

abbrev FilePath' := List String

inductive Node where
  | file (content : List Char) (readonly : Bool)
  | dir (readonly : Bool)
deriving DecidableEq

abbrev FS := List (FilePath' × Node)

/-- The node recorded at exactly path `p` (first match in the list). -/
def entryAt (fs : FS) (p : FilePath') : Option Node :=
  (fs.find? (fun e => e.1 == p)).map (·.2)

/-- Replace (or create) the entry at `p`. -/
def setE (fs : FS) (p : FilePath') (n : Node) : FS :=
  (p, n) :: fs.filter (fun e => ¬ e.1 = p)

/-- Delete the entry at exactly `p`. -/
def removeEntry (fs : FS) (p : FilePath') : FS :=
  fs.filter (fun e => ¬ e.1 = p)

/-- Delete every entry at or below `p` (recursive delete). -/
def eraseUnder (fs : FS) (p : FilePath') : FS :=
  fs.filter (fun e => ¬ p.isPrefixOf e.1 = true)

def clearRONode : Node → Node
  | .file c _ => .file c false
  | .dir _ => .dir false

def setRONode : Node → Node
  | .file c _ => .file c true
  | .dir _ => .dir true

def nodeRO : Node → Bool
  | .file _ ro => ro
  | .dir ro => ro

def nodeLen : Node → Nat
  | .file c _ => c.length
  | .dir _ => 0

def isFileNode : Node → Bool
  | .file _ _ => true
  | .dir _ => false

/-- Clear the read-only flag on every entry at or below `p`
    (the effect of `unset_readonly_recursive`'s WalkDir loop). -/
def clearROUnder (fs : FS) (p : FilePath') : FS :=
  fs.map (fun e => if p.isPrefixOf e.1 then (e.1, clearRONode e.2) else e)

/-- Clear the read-only flag on the single entry at `p`
    (`fs::set_permissions` after `perms.set_readonly(false)`). -/
def clearEntryRO (fs : FS) (p : FilePath') : FS :=
  fs.map (fun e => if e.1 = p then (e.1, clearRONode e.2) else e)

/-- Set the read-only flag on the entry at `p` (the `attrib +r` call;
    on a missing path the command exits nonzero but `output()` is `Ok`,
    so this is modelled as total). -/
def attribSetRO (fs : FS) (p : FilePath') : FS :=
  fs.map (fun e => if e.1 = p then (e.1, setRONode e.2) else e)

def isFileAt (fs : FS) (p : FilePath') : Bool :=
  match entryAt fs p with
  | some (.file _ _) => true
  | _ => false

def isDirAt (fs : FS) (p : FilePath') : Bool :=
  p.isEmpty ||
    match entryAt fs p with
    | some (.dir _) => true
    | _ => false

def pathExists (fs : FS) (p : FilePath') : Bool :=
  p.isEmpty || (entryAt fs p).isSome

/-- `fs::read_to_string`: succeeds exactly on file entries. -/
def readFile (fs : FS) (p : FilePath') : Option (List Char) :=
  match entryAt fs p with
  | some (.file c _) => some c
  | _ => none

/-- `Path::parent`, `None` only at the root. -/
def rustParent (p : FilePath') : Option FilePath' :=
  if p = [] then none else some p.dropLast

/-- `fs::write`: fails on a read-only file, on a directory, or when the
    parent directory is missing; otherwise truncates/creates the file. -/
def fsWriteR (fs : FS) (p : FilePath') (c : List Char) : FS × Option String :=
  match entryAt fs p with
  | some (.file _ true) => (fs, some "permission denied")
  | some (.file _ false) => (setE fs p (.file c false), none)
  | some (.dir _) => (fs, some "is a directory")
  | none =>
    if isDirAt fs ((rustParent p).getD p) then (setE fs p (.file c false), none)
    else (fs, some "no such file or directory")

/-- `fs::remove_file`: fails on a missing path, a directory, or a
    read-only file (Windows semantics). -/
def removeFileR (fs : FS) (p : FilePath') : FS × Option String :=
  match entryAt fs p with
  | some (.file _ true) => (fs, some "access denied")
  | some (.file _ false) => (removeEntry fs p, none)
  | some (.dir _) => (fs, some "is a directory")
  | none => (fs, some "no such file or directory")

/-- Is there a read-only file at or below `p`? (What makes a recursive
    delete fail on Windows.) -/
def roFileUnder (fs : FS) (p : FilePath') : Bool :=
  fs.any (fun e => p.isPrefixOf e.1 && isFileNode e.2 && nodeRO e.2)

/-- `fs::remove_dir_all`: fails on a missing path, on a plain file, or
    when a read-only file is in the subtree; otherwise removes the
    subtree. -/
def removeDirAllR (fs : FS) (p : FilePath') : FS × Option String :=
  if pathExists fs p = false then (fs, some "no such file or directory")
  else if isFileAt fs p then (fs, some "not a directory")
  else if roFileUnder fs p then (fs, some "access denied")
  else (eraseUnder fs p, none)

/-- Create a directory entry at every (nonempty) prefix of `pre ++ rest`
    extending `pre` that has no entry yet. -/
def addDirsFrom (fs : FS) (pre : FilePath') : FilePath' → FS
  | [] => fs
  | c :: rest =>
    addDirsFrom
      (if (entryAt fs (pre ++ [c])).isNone then setE fs (pre ++ [c]) (.dir false) else fs)
      (pre ++ [c]) rest

/-- Is some (nonempty) prefix of `pre ++ rest` extending `pre` a file? -/
def hasFileOnPath (fs : FS) (pre : FilePath') : FilePath' → Bool
  | [] => false
  | c :: rest => isFileAt fs (pre ++ [c]) || hasFileOnPath fs (pre ++ [c]) rest

/-- `fs::create_dir_all`: fails when a file sits on the path, otherwise
    creates the directory and all missing parents. -/
def mkdirAllR (fs : FS) (p : FilePath') : FS × Option String :=
  if hasFileOnPath fs [] p then (fs, some "cannot create directory")
  else (addDirsFrom fs [] p, none)

/-! ### Characterisation lemmas for the primitives -/

theorem entryAt_nil (p : FilePath') : entryAt [] p = none := rfl

theorem entryAt_cons (e : FilePath' × Node) (fs : FS) (p : FilePath') :
    entryAt (e :: fs) p = if e.1 = p then some e.2 else entryAt fs p := by
  simp only [entryAt, List.find?]
  by_cases h : e.1 = p
  · simp [h]
  · simp [h, beq_eq_false_iff_ne.2 h]

theorem entryAt_removeEntry (fs : FS) (p q : FilePath') :
    entryAt (removeEntry fs p) q = if q = p then none else entryAt fs q := by
  induction fs with
  | nil => by_cases h : q = p <;> simp [removeEntry, entryAt_nil, h]
  | cons e fs ih =>
    simp only [removeEntry, List.filter_cons] at ih ⊢
    by_cases hep : e.1 = p
    · simp only [hep, not_true, decide_False]
      rw [if_neg (by simp), ih, entryAt_cons]
      by_cases hqp : q = p
      · simp [hqp]
      · have : ¬ e.1 = q := fun h => hqp (h ▸ hep ▸ rfl)
        simp [hqp, this]
    · simp only [hep, not_false_iff, decide_True]
      rw [if_pos (by simp [hep]), entryAt_cons, entryAt_cons, ih]
      by_cases hqe : e.1 = q
      · have hqp : ¬ q = p := fun h => hep (hqe.symm ▸ h ▸ rfl)
        simp [hqe, hqp]
      · simp [hqe]

theorem entryAt_setE (fs : FS) (p : FilePath') (n : Node) (q : FilePath') :
    entryAt (setE fs p n) q = if q = p then some n else entryAt fs q := by
  show entryAt ((p, n) :: removeEntry fs p) q = _
  rw [entryAt_cons, entryAt_removeEntry]
  by_cases h : q = p
  · simp [h]
  · have : ¬ p = q := fun hh => h hh.symm
    simp [h, this]

theorem entryAt_filterKey (f : FilePath' → Bool) (fs : FS) (q : FilePath') :
    entryAt (fs.filter (fun e => f e.1)) q
      = if f q = true then entryAt fs q else none := by
  induction fs with
  | nil => simp [entryAt_nil]
  | cons e fs ih =>
    rw [List.filter_cons]
    by_cases hf : f e.1 = true
    · rw [if_pos hf, entryAt_cons, entryAt_cons]
      by_cases heq : e.1 = q
      · rw [if_pos heq, if_pos (heq ▸ hf), if_pos heq]
      · rw [if_neg heq, if_neg heq, ih]
    · rw [if_neg hf, ih, entryAt_cons]
      by_cases heq : e.1 = q
      · rw [if_neg (heq ▸ hf), if_neg (heq ▸ hf)]
      · by_cases hq : f q = true
        · rw [if_pos hq, if_pos hq, if_neg heq]
        · rw [if_neg hq, if_neg hq]

theorem entryAt_eraseUnder (fs : FS) (p q : FilePath') :
    entryAt (eraseUnder fs p) q
      = if p.isPrefixOf q = true then none else entryAt fs q := by
  have h := entryAt_filterKey (fun x => decide (¬ p.isPrefixOf x = true)) fs q
  simp only [decide_eq_true_eq] at h
  rw [show eraseUnder fs p
        = fs.filter (fun e => decide (¬ p.isPrefixOf e.1 = true)) from rfl, h]
  by_cases hp : p.isPrefixOf q = true
  · rw [if_neg (by simp [hp]), if_pos hp]
  · rw [if_pos hp, if_neg hp]

theorem entryAt_mapVal (g : FilePath' → Node → Node) (fs : FS) (q : FilePath') :
    entryAt (fs.map (fun e => (e.1, g e.1 e.2))) q = (entryAt fs q).map (g q) := by
  induction fs with
  | nil => simp [entryAt_nil]
  | cons e fs ih =>
    rw [List.map_cons]
    rw [entryAt_cons ((e.1, g e.1 e.2)) _ q, entryAt_cons]
    by_cases heq : e.1 = q
    · subst heq; simp
    · simp only [heq, if_false, ih]

theorem entryAt_clearROUnder (fs : FS) (p q : FilePath') :
    entryAt (clearROUnder fs p) q
      = (entryAt fs q).map (fun n => if p.isPrefixOf q then clearRONode n else n) := by
  have hfun : clearROUnder fs p
      = fs.map (fun e => (e.1, if p.isPrefixOf e.1 then clearRONode e.2 else e.2)) := by
    unfold clearROUnder; congr 1; funext e; split <;> rfl
  rw [hfun]
  exact entryAt_mapVal (fun x n => if p.isPrefixOf x then clearRONode n else n) fs q

theorem entryAt_clearEntryRO (fs : FS) (p q : FilePath') :
    entryAt (clearEntryRO fs p) q
      = (entryAt fs q).map (fun n => if q = p then clearRONode n else n) := by
  have hfun : clearEntryRO fs p
      = fs.map (fun e => (e.1, if e.1 = p then clearRONode e.2 else e.2)) := by
    unfold clearEntryRO; congr 1; funext e; split <;> rfl
  rw [hfun]
  exact entryAt_mapVal (fun x n => if x = p then clearRONode n else n) fs q

theorem entryAt_attribSetRO (fs : FS) (p q : FilePath') :
    entryAt (attribSetRO fs p) q
      = (entryAt fs q).map (fun n => if q = p then setRONode n else n) := by
  have hfun : attribSetRO fs p
      = fs.map (fun e => (e.1, if e.1 = p then setRONode e.2 else e.2)) := by
    unfold attribSetRO; congr 1; funext e; split <;> rfl
  rw [hfun]
  exact entryAt_mapVal (fun x n => if x = p then setRONode n else n) fs q

/-! ### Prefix bookkeeping -/

theorem isPrefixOf_append_cancel (l a b : List String) :
    (l ++ a).isPrefixOf (l ++ b) = a.isPrefixOf b := by
  induction l with
  | nil => rfl
  | cons c l ih => simp [List.isPrefixOf, ih]

theorem isPrefixOf_false_of_ne_strings (l : List String) (a b : String)
    (x y : List String) (h : a ≠ b) :
    ((l ++ a :: x).isPrefixOf (l ++ b :: y)) = false := by
  rw [show l ++ a :: x = l ++ (a :: x) from rfl, show l ++ b :: y = l ++ (b :: y) from rfl,
    isPrefixOf_append_cancel]
  simp [List.isPrefixOf, h]

theorem ne_of_snoc_pfx {l q : List String} {c : String} (h : l ++ [c] <+: q) :
    q ≠ l := by
  intro hq
  have := h.length_le
  simp [hq] at this

theorem snoc_prefix_of_between {pre q : List String} {c : String} {rs : List String}
    (h1 : pre <+: q) (h2 : q <+: pre ++ c :: rs) (h3 : q ≠ pre) :
    pre ++ [c] <+: q ∧ q <+: (pre ++ [c]) ++ rs := by
  obtain ⟨t, rfl⟩ := h1
  have ht : t ≠ [] := by rintro rfl; simp at h3
  have h2' : t <+: c :: rs := (List.prefix_append_right_inj pre).1 h2
  obtain ⟨x, t', rfl⟩ : ∃ x t', t = x :: t' := by
    cases t with
    | nil => exact absurd rfl ht
    | cons x t' => exact ⟨x, t', rfl⟩
  obtain ⟨rfl, ht'⟩ := List.cons_prefix_cons.1 h2'
  constructor
  · exact ⟨t', by simp⟩
  · rw [List.append_assoc]
    exact (List.prefix_append_right_inj pre).2 (List.cons_prefix_cons.2 ⟨rfl, ht'⟩)

theorem entryAt_addDirsFrom (rest : FilePath') : ∀ (fs : FS) (pre q : FilePath'),
    entryAt (addDirsFrom fs pre rest) q
      = if pre <+: q ∧ q <+: pre ++ rest ∧ q ≠ pre ∧ entryAt fs q = none
        then some (.dir false) else entryAt fs q := by
  induction rest with
  | nil =>
    intro fs pre q
    simp only [addDirsFrom, List.append_nil]
    by_cases h : pre <+: q ∧ q <+: pre ∧ q ≠ pre ∧ entryAt fs q = none
    · exact absurd (h.2.1.sublist.antisymm h.1.sublist) h.2.2.1
    · rw [if_neg h]
  | cons c rs ih =>
    intro fs pre q
    simp only [addDirsFrom]
    rw [ih]
    by_cases hq : q = pre ++ [c]
    · subst hq
      rw [if_neg (by simp)]
      by_cases hn : (entryAt fs (pre ++ [c])).isNone
      · rw [if_pos hn, entryAt_setE, if_pos rfl,
          if_pos ⟨⟨[c], rfl⟩, ⟨rs, by simp⟩, ne_of_snoc_pfx List.prefix_rfl,
            Option.isNone_iff_eq_none.1 hn⟩]
      · rw [if_neg hn]
        have hsome : entryAt fs (pre ++ [c]) ≠ none :=
          fun h => hn (Option.isNone_iff_eq_none.2 h)
        rw [if_neg (fun h => hsome h.2.2.2)]
    · have hfs' : entryAt (if (entryAt fs (pre ++ [c])).isNone = true
          then setE fs (pre ++ [c]) (.dir false) else fs) q = entryAt fs q := by
        by_cases hn : (entryAt fs (pre ++ [c])).isNone
        · rw [if_pos hn, entryAt_setE, if_neg hq]
        · rw [if_neg hn]
      rw [hfs']
      by_cases hcond : pre <+: q ∧ q <+: pre ++ c :: rs ∧ q ≠ pre ∧ entryAt fs q = none
      · obtain ⟨h1, h2, h3, h4⟩ := hcond
        obtain ⟨g1, g2⟩ := snoc_prefix_of_between h1 h2 h3
        rw [if_pos ⟨g1, g2, hq, h4⟩,
          if_pos ⟨h1, h2, h3, h4⟩]
      · rw [if_neg hcond]
        by_cases hcond2 : pre ++ [c] <+: q ∧ q <+: (pre ++ [c]) ++ rs ∧ q ≠ pre ++ [c]
            ∧ entryAt fs q = none
        · exfalso
          obtain ⟨g1, g2, _, g4⟩ := hcond2
          exact hcond ⟨(List.prefix_append pre [c]).trans g1,
            by rwa [List.append_assoc] at g2, ne_of_snoc_pfx g1, g4⟩
        · rw [if_neg hcond2]

theorem hasFileOnPath_congr (rest : FilePath') : ∀ (fs fs' : FS) (pre : FilePath'),
    (∀ q, pre <+: q → q <+: pre ++ rest → q ≠ pre → isFileAt fs' q = isFileAt fs q) →
    hasFileOnPath fs' pre rest = hasFileOnPath fs pre rest := by
  induction rest with
  | nil => intro fs fs' pre _; rfl
  | cons c rs ih =>
    intro fs fs' pre h
    simp only [hasFileOnPath]
    rw [h (pre ++ [c]) ⟨[c], rfl⟩ ⟨rs, by simp⟩ (ne_of_snoc_pfx List.prefix_rfl),
      ih fs fs' (pre ++ [c]) ?_]
    intro q hq1 hq2 hq3
    exact h q ((List.prefix_append pre [c]).trans hq1)
      (by rwa [List.append_assoc] at hq2) (ne_of_snoc_pfx hq1)

/-! ### Rust string semantics on char lists

File contents are `List Char`.  `splitNL`, `stripCR`, `rustLines` model
Rust `str::lines` (split at `\n`, strip a `\r` that immediately precedes
a `\n`, drop a final empty segment); `trimL` models `str::trim` (ASCII
whitespace); `containsSub` models `str::contains` with a literal pattern.
-/

def splitNL : List Char → List (List Char)
  | [] => [[]]
  | c :: rest =>
    match splitNL rest with
    | [] => [[c]]
    | l :: ls => if c = '\n' then [] :: l :: ls else (c :: l) :: ls

def stripCR (l : List Char) : List Char :=
  if l.getLast? = some '\r' then l.dropLast else l

def rustLines (cs : List Char) : List (List Char) :=
  match (splitNL cs).getLast? with
  | none => []
  | some last =>
    if last = [] then (splitNL cs).dropLast.map stripCR
    else (splitNL cs).dropLast.map stripCR ++ [last]

def joinNL : List (List Char) → List Char
  | [] => []
  | [l] => l
  | l :: ls => l ++ '\n' :: joinNL ls

def isWS (c : Char) : Bool := c = ' ' || c = '\t' || c = '\n' || c = '\r'

def trimL (l : List Char) : List Char :=
  ((l.dropWhile isWS).reverse.dropWhile isWS).reverse

def containsSub : List Char → List Char → Bool
  | [], pat => pat.isEmpty
  | c :: t, pat => pat.isPrefixOf (c :: t) || containsSub t pat

theorem splitNL_ne_nil (cs : List Char) : splitNL cs ≠ [] := by
  cases cs with
  | nil => simp [splitNL]
  | cons c rest =>
    simp only [splitNL]
    cases splitNL rest with
    | nil => simp
    | cons l ls => by_cases h : c = '\n' <;> simp [h]

theorem mem_splitNL_no_nl (cs : List Char) : ∀ l ∈ splitNL cs, '\n' ∉ l := by
  induction cs with
  | nil => intro l hl; simp [splitNL] at hl; simp [hl]
  | cons c rest ih =>
    intro l hl
    cases hsp : splitNL rest with
    | nil => exact absurd hsp (splitNL_ne_nil rest)
    | cons x ls =>
      simp only [splitNL, hsp] at hl
      by_cases hc : c = '\n'
      · rw [if_pos hc, List.mem_cons] at hl
        rcases hl with hl | hl
        · simp [hl]
        · exact ih l (by rw [hsp]; exact hl)
      · rw [if_neg hc, List.mem_cons] at hl
        rcases hl with hl | hl
        · subst hl
          intro hmem
          rw [List.mem_cons] at hmem
          rcases hmem with hmem | hmem
          · exact hc hmem.symm
          · exact ih x (by rw [hsp]; exact List.mem_cons_self x ls) hmem
        · exact ih l (by rw [hsp]; exact List.mem_cons_of_mem x hl)

theorem splitNL_no_nl {a : List Char} (h : '\n' ∉ a) : splitNL a = [a] := by
  induction a with
  | nil => rfl
  | cons c rest ih =>
    have hc : ¬ c = '\n' := fun hh => h (hh ▸ List.mem_cons_self c rest)
    have hrest : '\n' ∉ rest := fun hh => h (List.mem_cons_of_mem c hh)
    simp only [splitNL, ih hrest, if_neg hc]

theorem splitNL_append_nl {a : List Char} (b : List Char) (h : '\n' ∉ a) :
    splitNL (a ++ '\n' :: b) = a :: splitNL b := by
  induction a with
  | nil =>
    simp only [List.nil_append, splitNL]
    cases hsp : splitNL b with
    | nil => exact absurd hsp (splitNL_ne_nil b)
    | cons l ls => simp
  | cons c rest ih =>
    have hc : ¬ c = '\n' := fun hh => h (hh ▸ List.mem_cons_self c rest)
    have hrest : '\n' ∉ rest := fun hh => h (List.mem_cons_of_mem c hh)
    have hstep : splitNL (c :: (rest ++ '\n' :: b))
        = match splitNL (rest ++ '\n' :: b) with
          | [] => [[c]]
          | l :: ls => if c = '\n' then [] :: l :: ls else (c :: l) :: ls := rfl
    rw [List.cons_append, hstep, ih hrest]
    simp [hc]

theorem splitNL_joinNL : ∀ (parts : List (List Char)), parts ≠ [] →
    (∀ p ∈ parts, '\n' ∉ p) → splitNL (joinNL parts) = parts := by
  intro parts
  induction parts with
  | nil => intro h; exact absurd rfl h
  | cons l ls ih =>
    intro _ hnl
    cases ls with
    | nil => exact splitNL_no_nl (hnl l (List.mem_cons_self l []))
    | cons l2 ls2 =>
      show splitNL (l ++ '\n' :: joinNL (l2 :: ls2)) = l :: l2 :: ls2
      rw [splitNL_append_nl _ (hnl l (List.mem_cons_self l _)),
        ih (by simp) (fun p hp => hnl p (List.mem_cons_of_mem l hp))]

theorem memOfGetLast? {α : Type} {l : List α} {a : α} (h : l.getLast? = some a) :
    a ∈ l := by
  rcases List.mem_getLast?_eq_getLast (show a ∈ l.getLast? by rw [h]; exact rfl)
    with ⟨hne, heq⟩
  rw [heq]; exact List.getLast_mem hne

theorem mapIdOfEq {α : Type} (f : α → α) :
    ∀ (l : List α), (∀ x ∈ l, f x = x) → l.map f = l := by
  intro l h
  induction l with
  | nil => rfl
  | cons a t ih =>
    rw [List.map_cons, h a (List.mem_cons_self a t),
      ih fun x hx => h x (List.mem_cons_of_mem a hx)]

theorem stripCR_eq_self {l : List Char} (h : l.getLast? ≠ some '\r') :
    stripCR l = l := by
  unfold stripCR; rw [if_neg h]

theorem mem_rustLines (cs : List Char) :
    ∀ q ∈ rustLines cs, ∃ x ∈ splitNL cs, q = x ∨ q = stripCR x := by
  intro q hq
  unfold rustLines at hq
  cases hlast : (splitNL cs).getLast? with
  | none => rw [hlast] at hq; simp at hq
  | some last =>
    rw [hlast] at hq
    have hq' : q ∈ (if last = [] then (splitNL cs).dropLast.map stripCR
        else (splitNL cs).dropLast.map stripCR ++ [last]) := hq
    clear hq
    rename' hq' => hq
    have hmemlast : last ∈ splitNL cs := memOfGetLast? hlast
    by_cases hl : last = []
    · rw [if_pos hl] at hq
      rcases List.mem_map.1 hq with ⟨x, hx, hqx⟩
      exact ⟨x, List.mem_of_mem_dropLast hx, Or.inr hqx.symm⟩
    · rw [if_neg hl] at hq
      rcases List.mem_append.1 hq with hq | hq
      · rcases List.mem_map.1 hq with ⟨x, hx, hqx⟩
        exact ⟨x, List.mem_of_mem_dropLast hx, Or.inr hqx.symm⟩
      · rw [List.mem_singleton.1 hq]
        exact ⟨last, hmemlast, Or.inl rfl⟩

theorem not_mem_stripCR {c : Char} {l : List Char} (h : c ∉ l) : c ∉ stripCR l := by
  unfold stripCR
  split
  · exact fun hc => h ((List.dropLast_sublist l).mem hc)
  · exact h

theorem mem_rustLines_no_nl (cs : List Char) : ∀ q ∈ rustLines cs, '\n' ∉ q := by
  intro q hq
  rcases mem_rustLines cs q hq with ⟨x, hx, hqx | hqx⟩
  · rw [hqx]; exact mem_splitNL_no_nl cs x hx
  · rw [hqx]; exact not_mem_stripCR (mem_splitNL_no_nl cs x hx)

theorem rustLines_joinNL (parts : List (List Char)) (hne : parts ≠ [])
    (hnl : ∀ p ∈ parts, '\n' ∉ p)
    (hcr : ∀ p ∈ parts, p.getLast? ≠ some '\r')
    (hlast : parts.getLast? ≠ some []) :
    rustLines (joinNL parts) = parts := by
  cases hg : parts.getLast? with
  | none => exact absurd (List.getLast?_eq_none_iff.1 hg) hne
  | some last =>
    have hlne : last ≠ [] := fun h => hlast (h ▸ hg)
    have hstep : rustLines (joinNL parts)
        = if last = [] then parts.dropLast.map stripCR
          else parts.dropLast.map stripCR ++ [last] := by
      unfold rustLines
      rw [splitNL_joinNL parts hne hnl, hg]
    rw [hstep, if_neg hlne]
    rw [mapIdOfEq stripCR parts.dropLast
      (fun x hx => stripCR_eq_self (hcr x (List.mem_of_mem_dropLast hx)))]
    have hgl : last = parts.getLast hne := by
      have := List.getLast?_eq_getLast_of_ne_nil hne
      rw [hg] at this
      exact Option.some_injective _ this
    rw [hgl]
    exact List.dropLast_append_getLast hne

theorem isPrefixOf_append_nl (b : List Char) :
    ∀ (a pat : List Char), pat ≠ [] → '\n' ∉ pat →
    pat.isPrefixOf (a ++ '\n' :: b) = pat.isPrefixOf a := by
  intro a
  induction a with
  | nil =>
    intro pat hne hnl
    cases pat with
    | nil => exact absurd rfl hne
    | cons d p' =>
      have hd : ¬ d = '\n' := fun h => hnl (h ▸ List.mem_cons_self d p')
      simp [List.isPrefixOf, hd]
  | cons c a' ih =>
    intro pat hne hnl
    cases pat with
    | nil => exact absurd rfl hne
    | cons d p' =>
      show (d :: p').isPrefixOf (c :: (a' ++ '\n' :: b)) = (d :: p').isPrefixOf (c :: a')
      simp only [List.isPrefixOf]
      by_cases hp' : p' = []
      · subst hp'; simp [List.isPrefixOf]
      · rw [ih p' hp' (fun h => hnl (List.mem_cons_of_mem d h))]

theorem containsSub_append_nl (b : List Char) :
    ∀ (a pat : List Char), pat ≠ [] → '\n' ∉ pat →
    containsSub (a ++ '\n' :: b) pat = (containsSub a pat || containsSub b pat) := by
  intro a
  induction a with
  | nil =>
    intro pat hne hnl
    show containsSub ('\n' :: b) pat = (containsSub [] pat || containsSub b pat)
    have h1 : containsSub [] pat = false := by
      cases pat with
      | nil => exact absurd rfl hne
      | cons d p' => rfl
    have h2 : pat.isPrefixOf ('\n' :: b) = false := by
      cases pat with
      | nil => exact absurd rfl hne
      | cons d p' =>
        have hd : ¬ d = '\n' := fun h => hnl (h ▸ List.mem_cons_self d p')
        simp [List.isPrefixOf, hd]
    show (pat.isPrefixOf ('\n' :: b) || containsSub b pat)
        = (containsSub [] pat || containsSub b pat)
    rw [h1, h2]
  | cons c a' ih =>
    intro pat hne hnl
    show (pat.isPrefixOf (c :: (a' ++ '\n' :: b)) || containsSub (a' ++ '\n' :: b) pat)
        = ((pat.isPrefixOf (c :: a') || containsSub a' pat) || containsSub b pat)
    rw [ih pat hne hnl,
      show pat.isPrefixOf (c :: (a' ++ '\n' :: b)) = pat.isPrefixOf (c :: a') from
        isPrefixOf_append_nl b (c :: a') pat hne hnl,
      Bool.or_assoc]

theorem containsSub_joinNL (pat : List Char) (hne : pat ≠ []) (hnl : '\n' ∉ pat) :
    ∀ (parts : List (List Char)), (∀ p ∈ parts, '\n' ∉ p) →
    containsSub (joinNL parts) pat = parts.any (fun p => containsSub p pat) := by
  intro parts
  induction parts with
  | nil =>
    intro _
    show containsSub [] pat = false
    cases pat with
    | nil => exact absurd rfl hne
    | cons d p' => rfl
  | cons l ls ih =>
    intro hp
    cases ls with
    | nil =>
      show containsSub l pat = (containsSub l pat || false)
      rw [Bool.or_false]
    | cons l2 ls2 =>
      show containsSub (l ++ '\n' :: joinNL (l2 :: ls2)) pat
          = (containsSub l pat || (l2 :: ls2).any (fun p => containsSub p pat))
      rw [containsSub_append_nl (joinNL (l2 :: ls2)) l pat hne hnl,
        ih (fun p hp2 => hp p (List.mem_cons_of_mem l hp2))]

theorem isPrefixOf_mono_append {pat a : List Char} (b : List Char)
    (h : pat.isPrefixOf a = true) : pat.isPrefixOf (a ++ b) = true := by
  rw [List.isPrefixOf_iff_prefix] at h ⊢
  exact h.trans (List.prefix_append a b)

theorem containsSub_mono_append {pat a : List Char} (b : List Char)
    (h : containsSub a pat = true) : containsSub (a ++ b) pat = true := by
  induction a with
  | nil =>
    have hpat : pat = [] := by
      cases pat with
      | nil => rfl
      | cons d p' => simp [containsSub] at h
    subst hpat
    cases b with
    | nil => rfl
    | cons c t => show (([] : List Char).isPrefixOf (c :: t) || containsSub t []) = true
                  simp [List.isPrefixOf]
  | cons c a' ih =>
    show (pat.isPrefixOf ((c :: a') ++ b) || containsSub (a' ++ b) pat) = true
    have h' : (pat.isPrefixOf (c :: a') || containsSub a' pat) = true := h
    rcases Bool.or_eq_true_iff.1 h' with h1 | h2
    · rw [isPrefixOf_mono_append b h1, Bool.true_or]
    · rw [ih h2, Bool.or_true]

theorem containsSub_stripCR {pat x : List Char}
    (h : containsSub (stripCR x) pat = true) : containsSub x pat = true := by
  unfold stripCR at h
  by_cases hlast : x.getLast? = some '\r'
  · rw [if_pos hlast] at h
    have hx : x ≠ [] := by rintro rfl; simp at hlast
    rw [← List.dropLast_append_getLast hx]
    exact containsSub_mono_append _ h
  · rwa [if_neg hlast] at h

/-! ### The configuration lock (`lock_configuration` in protector.rs) -/

def lastVersionKey : List Char := "last_version".data

def sentinelLine : List Char := "last_version=1.0.0.0".data

/-- `line.trim().starts_with("last_version")`. -/
def isLockKeyLine (l : List Char) : Bool := lastVersionKey.isPrefixOf (trimL l)

/-- The for-loop of `lock_configuration`: rebuild the line list, replacing
    every `last_version` line by the sentinel line, tracking `found`. -/
def lockFold (lines : List (List Char)) : List (List Char) × Bool :=
  lines.foldl
    (fun acc line =>
      if isLockKeyLine line then (acc.1 ++ [sentinelLine], true)
      else (acc.1 ++ [line], acc.2))
    ([], false)

/-- `new_lines` after the trailing `if !found { push }`. -/
def lockedLines (lines : List (List Char)) : List (List Char) :=
  if (lockFold lines).2 then (lockFold lines).1 else (lockFold lines).1 ++ [sentinelLine]

/-- The config content written by `lock_configuration` (`new_lines.join("\n")`). -/
def lockTransform (content : List Char) : List Char :=
  joinNL (lockedLines (rustLines content))

/-- The `content` read at the start of `lock_configuration`: empty when the
    file is missing, `unwrap_or_default` when the read fails. -/
def configReadContent (fs : FS) (config_path : FilePath') : List Char :=
  if pathExists fs config_path then (readFile fs config_path).getD [] else []

/-- `lock_configuration`: upsert `last_version=1.0.0.0` into
    `<apps_path>/configure.ini` and rewrite the whole file. -/
def lock_configuration (fs : FS) (apps_path : FilePath') : FS × Option String :=
  fsWriteR fs (apps_path ++ ["configure.ini"])
    (lockTransform (configReadContent fs (apps_path ++ ["configure.ini"])))

def lockLineMap (l : List Char) : List Char :=
  if isLockKeyLine l then sentinelLine else l

theorem lockFold_go : ∀ (L : List (List Char)) (acc : List (List Char) × Bool),
    L.foldl (fun acc line =>
        if isLockKeyLine line then (acc.1 ++ [sentinelLine], true)
        else (acc.1 ++ [line], acc.2)) acc
      = (acc.1 ++ L.map lockLineMap, acc.2 || L.any isLockKeyLine) := by
  intro L
  induction L with
  | nil => intro acc; simp
  | cons l ls ih =>
    intro acc
    rw [List.foldl_cons, ih]
    by_cases hl : isLockKeyLine l
    · simp [lockLineMap, hl, List.append_assoc]
    · simp [lockLineMap, hl, List.append_assoc, Bool.or_assoc]

theorem lockFold_eq (L : List (List Char)) :
    lockFold L = (L.map lockLineMap, L.any isLockKeyLine) := by
  unfold lockFold; rw [lockFold_go]; simp

theorem lockedLines_eq (L : List (List Char)) :
    lockedLines L
      = if L.any isLockKeyLine then L.map lockLineMap else L ++ [sentinelLine] := by
  unfold lockedLines
  rw [lockFold_eq]
  by_cases h : L.any isLockKeyLine = true
  · rw [if_pos h, if_pos h]
  · have h' : L.any isLockKeyLine = false := by
      cases hb : L.any isLockKeyLine
      · rfl
      · exact absurd hb h
    rw [if_neg h, if_neg h]
    congr 1
    apply mapIdOfEq
    intro x hx
    have hfalse : isLockKeyLine x = false :=
      Bool.eq_false_iff.2 (List.any_eq_false.1 h' x hx)
    simp [lockLineMap, hfalse]

theorem mem_lockedLines (L : List (List Char)) :
    ∀ x ∈ lockedLines L, x = sentinelLine ∨ (x ∈ L ∧ isLockKeyLine x = false) := by
  intro x hx
  rw [lockedLines_eq] at hx
  by_cases h : L.any isLockKeyLine = true
  · rw [if_pos h] at hx
    rcases List.mem_map.1 hx with ⟨y, hy, hxy⟩
    by_cases hk : isLockKeyLine y = true
    · left; rw [← hxy]; simp [lockLineMap, hk]
    · right
      have hk' : isLockKeyLine y = false := by
        cases hb : isLockKeyLine y
        · rfl
        · exact absurd hb hk
      have hxy' : x = y := by rw [← hxy]; simp [lockLineMap, hk']
      rw [hxy']
      exact ⟨hy, hk'⟩
  · rw [if_neg h] at hx
    have h' : L.any isLockKeyLine = false := by
      cases hb : L.any isLockKeyLine
      · rfl
      · exact absurd hb h
    rcases List.mem_append.1 hx with hx | hx
    · right; exact ⟨hx, Bool.eq_false_iff.2 (List.any_eq_false.1 h' x hx)⟩
    · left; exact List.mem_singleton.1 hx

theorem isLockKeyLine_sentinel : isLockKeyLine sentinelLine = true := by decide

theorem sentinel_no_nl : '\n' ∉ sentinelLine := by decide

theorem sentinel_last_ne_cr : sentinelLine.getLast? ≠ some '\r' := by decide

theorem sentinel_ne_nil : sentinelLine ≠ [] := by decide

/-- The lines of `c` neither end in a bare carriage return nor end with an
    empty final line.  Under this proviso `lock_configuration` is byte-stable
    from the first application on. -/
def lockStableContent (c : List Char) : Prop :=
  (∀ x ∈ rustLines c, x.getLast? ≠ some '\r') ∧ (rustLines c).getLast? ≠ some []

instance (c : List Char) : Decidable (lockStableContent c) := by
  unfold lockStableContent; infer_instance

theorem lockedLines_ne_nil (L : List (List Char)) : lockedLines L ≠ [] := by
  rw [lockedLines_eq]
  by_cases h : L.any isLockKeyLine = true
  · rw [if_pos h]
    intro hmap
    rcases List.any_eq_true.1 h with ⟨x, hx, _⟩
    rw [List.map_eq_nil_iff] at hmap
    rw [hmap] at hx
    exact List.not_mem_nil x hx
  · rw [if_neg h]; simp

theorem mem_lockedLines_no_nl (c : List Char) :
    ∀ p ∈ lockedLines (rustLines c), '\n' ∉ p := by
  intro p hp
  rcases mem_lockedLines _ p hp with h | ⟨h, _⟩
  · rw [h]; exact sentinel_no_nl
  · exact mem_rustLines_no_nl c p h

theorem lockedLines_any (L : List (List Char)) :
    (lockedLines L).any isLockKeyLine = true := by
  rw [lockedLines_eq]
  by_cases h : L.any isLockKeyLine = true
  · rw [if_pos h]
    rcases List.any_eq_true.1 h with ⟨x, hx, hpx⟩
    refine List.any_eq_true.2 ⟨lockLineMap x, List.mem_map_of_mem _ hx, ?_⟩
    simp only [lockLineMap, if_pos hpx]
    exact isLockKeyLine_sentinel
  · rw [if_neg h]
    exact List.any_eq_true.2 ⟨sentinelLine,
      List.mem_append.2 (Or.inr (List.mem_singleton.2 rfl)), isLockKeyLine_sentinel⟩

theorem lockLineMap_id_on_lockedLines (L : List (List Char)) :
    (lockedLines L).map lockLineMap = lockedLines L := by
  apply mapIdOfEq
  intro x hx
  rcases mem_lockedLines L x hx with h | ⟨_, h⟩
  · rw [h]; simp only [lockLineMap, if_pos isLockKeyLine_sentinel]
  · simp [lockLineMap, h]

theorem lockedLines_getLast_ne_nilLine {c : List Char} (h : lockStableContent c) :
    (lockedLines (rustLines c)).getLast? ≠ some [] := by
  rw [lockedLines_eq]
  by_cases ha : (rustLines c).any isLockKeyLine = true
  · rw [if_pos ha, List.getLast?_map]
    intro hc
    cases hg : (rustLines c).getLast? with
    | none => rw [hg] at hc; simp at hc
    | some lastL =>
      rw [hg] at hc
      simp only [Option.map_some'] at hc
      have hc' : lockLineMap lastL = [] := Option.some_injective _ hc
      by_cases hk : isLockKeyLine lastL = true
      · rw [lockLineMap, if_pos hk] at hc'; exact sentinel_ne_nil hc'
      · rw [lockLineMap, if_neg hk] at hc'; exact h.2 (hc' ▸ hg)
  · rw [if_neg ha, List.getLast?_concat]
    intro hc
    exact sentinel_ne_nil (Option.some_injective _ hc)

theorem lockedLines_last_ne_cr {c : List Char} (h : lockStableContent c) :
    ∀ x ∈ lockedLines (rustLines c), x.getLast? ≠ some '\r' := by
  intro x hx
  rcases mem_lockedLines _ x hx with hs | ⟨hmem, _⟩
  · rw [hs]; exact sentinel_last_ne_cr
  · exact h.1 x hmem

theorem rustLines_lockTransform {c : List Char} (h : lockStableContent c) :
    rustLines (lockTransform c) = lockedLines (rustLines c) := by
  unfold lockTransform
  exact rustLines_joinNL _ (lockedLines_ne_nil _) (mem_lockedLines_no_nl c)
    (lockedLines_last_ne_cr h) (lockedLines_getLast_ne_nilLine h)

theorem lockTransform_stable {c : List Char} (h : lockStableContent c) :
    lockTransform (lockTransform c) = lockTransform c := by
  show joinNL (lockedLines (rustLines (lockTransform c))) = lockTransform c
  rw [rustLines_lockTransform h, lockedLines_eq, if_pos (lockedLines_any _),
    lockLineMap_id_on_lockedLines]
  rfl

/-! ### protector.rs commands -/

/-- `unset_readonly_recursive`: best-effort clear of the read-only flag on
    the whole subtree; per-entry failures are swallowed inside the walk and
    the body always ends in `Ok(())`. -/
def unset_readonly_recursive (fs : FS) (p : FilePath') : FS × Option String :=
  (clearROUnder fs p, none)

/-- `create_readonly`: remove whatever is at `path` (clearing read-only
    flags first), write a zero-byte file there and mark it read-only. -/
def create_readonly (fs : FS) (p : FilePath') : FS × Option String :=
  let step1 : FS × Option String :=
    if pathExists fs p then
      let fs1 := (unset_readonly_recursive fs p).1
      if isDirAt fs1 p then removeDirAllR fs1 p else removeFileR fs1 p
    else (fs, none)
  match step1 with
  | (fs1, some e) => (fs1, some e)
  | (fs1, none) =>
    match fsWriteR fs1 p [] with
    | (fs2, some e) => (fs2, some e)
    | (fs2, none) => (attribSetRO fs2 p, none)

/-- `create_dummy_files`: the `ProductInfo.xml` blocker, then
    `create_dir_all` for `User Data/Download`, then the `update.exe`
    blocker. -/
def create_dummy_files (fs : FS) (capcut_path apps_path : FilePath') :
    FS × Option String :=
  match create_readonly fs (apps_path ++ ["ProductInfo.xml"]) with
  | (fs1, some e) => (fs1, some e)
  | (fs1, none) =>
    match mkdirAllR fs1 (capcut_path ++ ["User Data", "Download"]) with
    | (fs2, some e) => (fs2, some e)
    | (fs2, none) =>
      create_readonly fs2 (capcut_path ++ ["User Data", "Download", "update.exe"])

structure ProtectionResult where
  success : Bool
  error : Option String
  logs : List String
deriving DecidableEq

/-- `path.file_name().unwrap_or_default().to_string_lossy()`. -/
def fileNameOf (p : FilePath') : String := (p.getLast?).getD ""

/-- The loop and epilogue of `delete_versions`; `orig` is the whole input
    list (used only by the final `[OK]` line). -/
def deleteLoop (orig : List FilePath') (fs : FS) (logs : List String) :
    List FilePath' → ProtectionResult × FS
  | [] =>
    (⟨true, none,
      logs ++ [if orig.isEmpty then "[OK] No versions to delete"
               else "[OK] Deleted " ++ toString orig.length ++ " version(s)"]⟩, fs)
  | p :: ps =>
    let logs1 := logs ++ ["Deleting: " ++ fileNameOf p]
    let ur := unset_readonly_recursive fs p
    let logs2 := match ur.2 with
      | some e => logs1 ++ ["[!] Warning: " ++ e]
      | none => logs1
    match removeDirAllR ur.1 p with
    | (fs2, some e) =>
      (⟨false, some ("Failed to delete " ++ fileNameOf p ++ ": " ++ e), logs2⟩, fs2)
    | (fs2, none) => deleteLoop orig fs2 logs2 ps

/-- `delete_versions` (Tauri command). -/
def delete_versions (fs : FS) (paths : List FilePath') : ProtectionResult × FS :=
  deleteLoop paths fs [] paths

/-- All deletions in `paths` succeed in order, yielding the final state. -/
def deleteAll (fs : FS) : List FilePath' → Option FS
  | [] => some fs
  | p :: ps =>
    match removeDirAllR (clearROUnder fs p) p with
    | (fs', none) => deleteAll fs' ps
    | (_, some _) => none

/-- The process environment (`LOCALAPPDATA`), as a path. -/
structure Env where
  localAppData : Option FilePath'

/-- `PathBuf::from(p).join("CapCut").join("Apps")`. -/
def appsPathOf (l : FilePath') : FilePath' := l ++ ["CapCut", "Apps"]

/-- `apps_path.parent().unwrap_or(&apps_path)`. -/
def parentOrSelf (p : FilePath') : FilePath' := (rustParent p).getD p

/-- `apply_protection` (Tauri command): lock config, then create blockers. -/
def apply_protection (env : Env) (fs : FS) : ProtectionResult × FS :=
  match env.localAppData with
  | none => (⟨false, some "Failed to get LOCALAPPDATA", []⟩, fs)
  | some l =>
    let apps_path := appsPathOf l
    let capcut_root := parentOrSelf apps_path
    match lock_configuration fs apps_path with
    | (fs1, some e) => (⟨false, some e, ["Modifying config..."]⟩, fs1)
    | (fs1, none) =>
      match create_dummy_files fs1 capcut_root apps_path with
      | (fs2, some e) =>
        (⟨false, some e,
          ["Modifying config...", "[OK] Configuration locked",
           "Creating blockers..."]⟩, fs2)
      | (fs2, none) =>
        (⟨true, none,
          ["Modifying config...", "[OK] Configuration locked",
           "Creating blockers...", "[OK] Update blockers created"]⟩, fs2)

/-- `apply_protection_with_options`: same two steps, each behind a flag. -/
def apply_protection_with_options (env : Env) (lock_config create_blockers : Bool)
    (fs : FS) : ProtectionResult × FS :=
  match env.localAppData with
  | none => (⟨false, some "Failed to get LOCALAPPDATA", []⟩, fs)
  | some l =>
    let apps_path := appsPathOf l
    let capcut_root := parentOrSelf apps_path
    let s1 : (FS × List String) ⊕ (ProtectionResult × FS) :=
      if lock_config then
        match lock_configuration fs apps_path with
        | (fs1, some e) => Sum.inr (⟨false, some e, ["Modifying config..."]⟩, fs1)
        | (fs1, none) =>
          Sum.inl (fs1, ["Modifying config...", "[OK] Configuration locked"])
      else Sum.inl (fs, ["Skipping config lock (disabled)"])
    match s1 with
    | Sum.inr r => r
    | Sum.inl (fs1, logs1) =>
      if create_blockers then
        match create_dummy_files fs1 capcut_root apps_path with
        | (fs2, some e) => (⟨false, some e, logs1 ++ ["Creating blockers..."]⟩, fs2)
        | (fs2, none) =>
          (⟨true, none,
            logs1 ++ ["Creating blockers...", "[OK] Update blockers created"]⟩, fs2)
      else (⟨true, none, logs1 ++ ["Skipping blocker creation (disabled)"]⟩, fs1)

structure ProtectionStatus where
  is_protected : Bool
  config_locked : Bool
  blockers_exist : Bool
deriving DecidableEq

/-- `check_protection_status` (Tauri command). -/
def check_protection_status (env : Env) (fs : FS) : ProtectionStatus :=
  match env.localAppData with
  | none => ⟨false, false, false⟩
  | some l =>
    let apps_path := appsPathOf l
    let capcut_root := parentOrSelf apps_path
    let product_info := apps_path ++ ["ProductInfo.xml"]
    let blockers_exist :=
      if pathExists fs product_info then
        match entryAt fs product_info with
        | some n => nodeLen n == 0 && nodeRO n
        | none => false
      else false
    let update_blocker := capcut_root ++ ["User Data", "Download", "update.exe"]
    let update_blocked :=
      if pathExists fs update_blocker then
        match entryAt fs update_blocker with
        | some n => nodeLen n == 0 && nodeRO n
        | none => false
      else false
    let config_path := apps_path ++ ["configure.ini"]
    let config_locked :=
      if pathExists fs config_path then
        match readFile fs config_path with
        | some content => containsSub content sentinelLine
        | none => false
      else false
    ⟨blockers_exist || update_blocked || config_locked, config_locked,
      blockers_exist || update_blocked⟩

/-- One `if <blocker>.exists()` block of `remove_protection`: clear the
    read-only flags, delete the file, log a warning instead of aborting on
    failure.  Returns the new state and the log lines this block appended. -/
def removeBlockerStep (fs : FS) (p : FilePath')
    (startLog okLog failPrefix : String) : FS × List String :=
  if pathExists fs p then
    let logs : List String := [startLog]
    let ur := unset_readonly_recursive fs p
    let logs := match ur.2 with
      | some e => logs ++ ["[!] Warning: " ++ e]
      | none => logs
    match removeFileR ur.1 p with
    | (fs1, some e) => (fs1, logs ++ [failPrefix ++ e])
    | (fs1, none) => (fs1, logs ++ [okLog])
  else (fs, [])

/-- The `configure.ini` reset block of `remove_protection`: keep only the
    lines whose trimmed form does not start with `last_version`. -/
def configResetStep (fs : FS) (p : FilePath') : FS × List String :=
  if pathExists fs p then
    let logs : List String := ["Resetting configure.ini..."]
    match readFile fs p with
    | some content =>
      let new_content :=
        joinNL ((rustLines content).filter (fun line => !(isLockKeyLine line)))
      match fsWriteR fs p new_content with
      | (fs1, some e) => (fs1, logs ++ ["[!] Could not reset configure.ini: " ++ e])
      | (fs1, none) => (fs1, logs ++ ["[OK] configure.ini reset"])
    | none => (fs, logs)
  else (fs, [])

/-- `remove_protection` (Tauri command). -/
def remove_protection (env : Env) (fs : FS) : ProtectionResult × FS :=
  match env.localAppData with
  | none => (⟨false, some "Failed to get LOCALAPPDATA", []⟩, fs)
  | some l =>
    let apps_path := appsPathOf l
    let capcut_root := parentOrSelf apps_path
    let st1 := removeBlockerStep fs (apps_path ++ ["ProductInfo.xml"])
      "Removing ProductInfo.xml blocker..." "[OK] ProductInfo.xml blocker removed"
      "[!] Could not remove ProductInfo.xml: "
    let st2 := removeBlockerStep st1.1
      (capcut_root ++ ["User Data", "Download", "update.exe"])
      "Removing update.exe blocker..." "[OK] update.exe blocker removed"
      "[!] Could not remove update.exe: "
    let st3 := configResetStep st2.1 (apps_path ++ ["configure.ini"])
    (⟨true, none,
      st1.2 ++ st2.2 ++ st3.2
        ++ ["[OK] Protection removed - CapCut can now auto-update"]⟩, st3.1)

structure ProtectionParams where
  versions_to_delete : List FilePath'
  clean_cache : Bool
  lock_config : Bool
  create_blockers : Bool

/-- `run_full_protection` (Tauri command).  The process check
    (`process::is_capcut_running`) and the cache cleaner
    (`cleaner::clean_cache`, an external collaborator not under `src/`)
    are passed in as parameters. -/
def run_full_protection (env : Env) (isRunning : Bool)
    (cleanCache : FS → List String × FS) (params : ProtectionParams)
    (fs : FS) : ProtectionResult × FS :=
  let all_logs : List String := ["Checking system state..."]
  if isRunning then
    (⟨false, some "CapCut is still running. Please close it.", all_logs⟩, fs)
  else
    let all_logs := all_logs ++ ["[OK] No running instances"]
    let dr := delete_versions fs params.versions_to_delete
    let all_logs := all_logs ++ dr.1.logs
    if dr.1.success = false then
      (⟨false, dr.1.error, all_logs⟩, dr.2)
    else
      let st : FS × List String :=
        if params.clean_cache then
          let cr := cleanCache dr.2
          (cr.2, all_logs ++ ["Cleaning cache directories..."] ++ cr.1)
        else (dr.2, all_logs ++ ["Skipping cache cleaning (disabled)"])
      if params.lock_config || params.create_blockers then
        let pr := apply_protection_with_options env params.lock_config
          params.create_blockers st.1
        if pr.1.success = false then
          (⟨false, pr.1.error, st.2 ++ pr.1.logs⟩, pr.2)
        else (⟨true, none, st.2 ++ pr.1.logs⟩, pr.2)
      else (⟨true, none, st.2 ++ ["Skipping protection (all options disabled)"]⟩, st.1)

/-! ### switcher.rs -/

structure SwitchResult where
  success : Bool
  message : String
  logs : List String
deriving DecidableEq

/-- Render a path for display (absolute, `/`-separated). -/
def pathToString (p : FilePath') : String := "/" ++ String.intercalate "/" p

/-- The Rust debug rendering of a `PathBuf` used inside log lines. -/
def debugPath (p : FilePath') : String := "\"" ++ pathToString p ++ "\""

/-- Modelled from the spec: `scanner::get_capcut_root_path` is not under
    `src/`; per spec section 6 all paths derive from the environment root
    as `<root>/CapCut`. -/
def get_capcut_root_path (env : Env) : Option FilePath' :=
  env.localAppData.map (fun l => l ++ ["CapCut"])

/-- Modelled from the spec: `scanner::get_capcut_apps_path` is not under
    `src/`; per spec section 6 it is `<root>/CapCut/Apps`. -/
def get_capcut_apps_path (env : Env) : Option FilePath' :=
  env.localAppData.map (fun l => l ++ ["CapCut", "Apps"])

/-- `target_dir.file_name().and_then(|n| n.to_str()).unwrap_or("unknown")`. -/
def versionNameOf (target : FilePath') : String := (target.getLast?).getD "unknown"

/-- The `ProductInfo.xml` template written by `switch_version`. -/
def productInfoTemplate (exe version : String) : String :=
  "<?xml version=\"1.0\" charset=\"utf-8\"?>\n<ProductInfo>\n  <InstallPath>"
    ++ exe ++ "</InstallPath>\n  <Version>" ++ version ++ "</Version>\n</ProductInfo>"

/-- The pointer-file content `switch_version` builds for `target`. -/
def switchPointerContentFor (target : FilePath') : String :=
  productInfoTemplate (pathToString (target ++ ["CapCut.exe"])) (versionNameOf target)

/-- The full `configure.ini` replacement `switch_version` builds for
    `target`. -/
def switchConfigContentFor (target : FilePath') : String :=
  "[Configure]\r\nlast_version=" ++ versionNameOf target ++ "\r\n"

/-- Step 1 of `switch_version`: repoint `ProductInfo.xml` (clear its
    read-only flag first, log instead of failing on a write error).
    Takes and returns the accumulated log. -/
def switchPointerStep (env : Env) (fs : FS) (target : FilePath')
    (logs : List String) : FS × List String :=
  match get_capcut_root_path env with
  | none => (fs, logs)
  | some root_path =>
    let product_info_path := root_path ++ ["Apps", "ProductInfo.xml"]
    let logs := logs ++ ["Updating ProductInfo at: " ++ debugPath product_info_path]
    let new_content := switchPointerContentFor target
    let st : FS × List String :=
      match entryAt fs product_info_path with
      | some n =>
        if nodeRO n then
          (clearEntryRO fs product_info_path,
           logs ++ ["Removed Read-Only attribute from ProductInfo.xml"])
        else (fs, logs)
      | none => (fs, logs)
    match fsWriteR st.1 product_info_path new_content.data with
    | (fs1, none) => (fs1, st.2 ++ ["[OK] Updated ProductInfo.xml"])
    | (fs1, some e) => (fs1, st.2 ++ ["[!] Failed to write ProductInfo.xml: " ++ e])

/-- Step 2 of `switch_version`: overwrite `configure.ini` with the
    single-key section (clear its read-only flag first, log instead of
    failing on a write error). -/
def switchConfigStep (env : Env) (fs : FS) (target : FilePath')
    (logs : List String) : FS × List String :=
  match get_capcut_apps_path env with
  | none => (fs, logs)
  | some apps_path =>
    let config_path := apps_path ++ ["configure.ini"]
    let logs := logs ++ ["Updating configure.ini at: " ++ debugPath config_path]
    let config_content := switchConfigContentFor target
    let fsa : FS :=
      match entryAt fs config_path with
      | some n => if nodeRO n then clearEntryRO fs config_path else fs
      | none => fs
    match fsWriteR fsa config_path config_content.data with
    | (fs1, none) => (fs1, logs ++ ["[OK] Updated configure.ini"])
    | (fs1, some e) => (fs1, logs ++ ["[!] Failed to write configure.ini: " ++ e])

/-- `switch_version` (Tauri command). -/
def switch_version (env : Env) (fs : FS) (target : FilePath') : SwitchResult × FS :=
  let logs : List String := ["Initiating switch to version at: " ++ debugPath target]
  if pathExists fs target = false then
    (⟨false, "Target version not found",
      logs ++ ["[!] Target directory does not exist"]⟩, fs)
  else
    let version_name := versionNameOf target
    let logs := logs ++ ["Detected version: " ++ version_name]
    let st1 := switchPointerStep env fs target logs
    let st2 := switchConfigStep env st1.1 target st1.2
    (⟨true, "Successfully switched to v" ++ version_name, st2.2⟩, st2.1)

/-! ### Support lemmas for the claim theorems -/

theorem ite_eq_and (b x : Bool) : (if b = true then x else false) = (b && x) := by
  cases b <;> simp

theorem switch_version_of_missing (env : Env) (fs : FS) (target : FilePath')
    (h : pathExists fs target = false) :
    switch_version env fs target
      = (⟨false, "Target version not found",
          ["Initiating switch to version at: " ++ debugPath target,
           "[!] Target directory does not exist"]⟩, fs) := by
  unfold switch_version
  rw [if_pos h]
  rfl

theorem switch_version_of_exists (env : Env) (fs : FS) (target : FilePath')
    (h : pathExists fs target = true) :
    switch_version env fs target
      = (⟨true, "Successfully switched to v" ++ versionNameOf target,
          (switchConfigStep env
            (switchPointerStep env fs target
              ["Initiating switch to version at: " ++ debugPath target,
               "Detected version: " ++ versionNameOf target]).1 target
            (switchPointerStep env fs target
              ["Initiating switch to version at: " ++ debugPath target,
               "Detected version: " ++ versionNameOf target]).2).2⟩,
         (switchConfigStep env
            (switchPointerStep env fs target
              ["Initiating switch to version at: " ++ debugPath target,
               "Detected version: " ++ versionNameOf target]).1 target
            (switchPointerStep env fs target
              ["Initiating switch to version at: " ++ debugPath target,
               "Detected version: " ++ versionNameOf target]).2).1) := by
  unfold switch_version
  rw [if_neg (by simp [h])]
  rfl

theorem mkdirAllR_pathExists {fs fs2 : FS} {p : FilePath'}
    (h : mkdirAllR fs p = (fs2, none)) : pathExists fs2 p = true := by
  unfold mkdirAllR at h
  by_cases hf : hasFileOnPath fs [] p = true
  · rw [if_pos hf] at h
    exact absurd (congrArg Prod.snd h) (by simp)
  · rw [if_neg hf] at h
    have hfs2 : addDirsFrom fs [] p = fs2 := congrArg Prod.fst h
    cases p with
    | nil => rfl
    | cons c rest =>
      rw [← hfs2]
      unfold pathExists
      rw [entryAt_addDirsFrom]
      by_cases hn : entryAt fs (c :: rest) = none
      · rw [if_pos ⟨List.nil_prefix, by simp, by simp, hn⟩]
        rfl
      · rw [if_neg (fun hcond => hn hcond.2.2.2)]
        cases hv : entryAt fs (c :: rest) with
        | none => exact absurd hv hn
        | some n => rfl

theorem removeDirAllR_error_fst {fs : FS} {p : FilePath'} {e : String}
    (h : (removeDirAllR fs p).2 = some e) : (removeDirAllR fs p).1 = fs := by
  unfold removeDirAllR at h ⊢
  by_cases h1 : pathExists fs p = false
  · rw [if_pos h1]
  · rw [if_neg h1] at h ⊢
    by_cases h2 : isFileAt fs p = true
    · rw [if_pos h2]
    · rw [if_neg h2] at h ⊢
      by_cases h3 : roFileUnder fs p = true
      · rw [if_pos h3]
      · rw [if_neg h3] at h
        exact absurd h (by simp)

/-! ### Claim theorems -/

/-- C7: when the is-running check reports the protected application as
    running, `run_full_protection` fails immediately, with no state change
    and exactly the precondition-check log line, for every parameter
    record and every cache-cleaner collaborator. -/
theorem run_full_protection_precondition_gate (env : Env)
    (cleanCache : FS → List String × FS) (params : ProtectionParams) (fs : FS) :
    run_full_protection env true cleanCache params fs
      = (⟨false, some "CapCut is still running. Please close it.",
          ["Checking system state..."]⟩, fs) := rfl

/-- C9: `switch_version` on an existing target path with no final
    component (the filesystem root, `[]` in this model) falls back to the
    label `unknown`, which appears in the success message, the full
    `configure.ini` replacement and the `ProductInfo.xml` template. -/
theorem switch_version_root_unknown_label (env : Env) (fs : FS) :
    (switch_version env fs []).1.success = true
    ∧ (switch_version env fs []).1.message = "Successfully switched to vunknown"
    ∧ versionNameOf [] = "unknown"
    ∧ switchConfigContentFor [] = "[Configure]\r\nlast_version=unknown\r\n"
    ∧ containsSub (switchPointerContentFor []).data "unknown".data = true := by
  have h : pathExists fs [] = true := rfl
  rw [switch_version_of_exists env fs [] h]
  exact ⟨rfl, rfl, rfl, rfl, by decide⟩

/-- C5: `switch_version` succeeds exactly when the target path exists; on
    a missing target it returns `Target version not found` and performs no
    filesystem writes; on an existing target it runs the pointer-file step
    and then, on that step's result regardless of its outcome, the
    config-file step, and reports success whatever the two write attempts
    returned. -/
theorem switch_version_failure_asymmetry (env : Env) (fs : FS) (target : FilePath') :
    ((switch_version env fs target).1.success = pathExists fs target)
    ∧ (pathExists fs target = false →
        (switch_version env fs target).1.message = "Target version not found"
        ∧ (switch_version env fs target).2 = fs)
    ∧ (pathExists fs target = true →
        switch_version env fs target
          = (⟨true, "Successfully switched to v" ++ versionNameOf target,
              (switchConfigStep env
                (switchPointerStep env fs target
                  ["Initiating switch to version at: " ++ debugPath target,
                   "Detected version: " ++ versionNameOf target]).1 target
                (switchPointerStep env fs target
                  ["Initiating switch to version at: " ++ debugPath target,
                   "Detected version: " ++ versionNameOf target]).2).2⟩,
             (switchConfigStep env
                (switchPointerStep env fs target
                  ["Initiating switch to version at: " ++ debugPath target,
                   "Detected version: " ++ versionNameOf target]).1 target
                (switchPointerStep env fs target
                  ["Initiating switch to version at: " ++ debugPath target,
                   "Detected version: " ++ versionNameOf target]).2).1)) := by
  by_cases h : pathExists fs target = true
  · refine ⟨?_, ?_, fun _ => switch_version_of_exists env fs target h⟩
    · rw [switch_version_of_exists env fs target h, h]
    · intro hc; rw [h] at hc; exact absurd hc (by simp)
  · have h' : pathExists fs target = false := by
      cases hb : pathExists fs target
      · rfl
      · exact absurd hb h
    refine ⟨?_, fun _ => ?_, fun hc => absurd hc (by rw [h']; simp)⟩
    · rw [switch_version_of_missing env fs target h', h']
    · rw [switch_version_of_missing env fs target h']
      exact ⟨rfl, rfl⟩

/-- Witness for C5 at a concrete missing target. -/
theorem switch_version_failure_asymmetry_witness :
    (switch_version ⟨some ["home"]⟩ [(["home"], .dir false)] ["v", "9.9"]).1.message
        = "Target version not found"
    ∧ (switch_version ⟨some ["home"]⟩ [(["home"], .dir false)] ["v", "9.9"]).2
        = [(["home"], .dir false)] :=
  (switch_version_failure_asymmetry ⟨some ["home"]⟩
    [(["home"], .dir false)] ["v", "9.9"]).2.1 (by decide)

/-- Following the spec's words (section 4.3, `is_blocker_present`): the
    path exists, its size is exactly zero, and it carries the read-only
    flag. -/
def specBlockerPresent (fs : FS) (p : FilePath') : Bool :=
  pathExists fs p &&
    (match entryAt fs p with
     | some n => nodeLen n == 0 && nodeRO n
     | none => false)

/-- Following the spec's words (section 4.2, `read_contains`): the file
    exists and its full text contains the literal sentinel substring. -/
def specConfigLocked (fs : FS) (p : FilePath') : Bool :=
  pathExists fs p && containsSub ((readFile fs p).getD []) sentinelLine

/-- Evaluation lemma: `check_protection_status` in terms of the
    spec-shaped predicates. -/
theorem check_protection_status_eval (l : FilePath') (fs : FS) :
    check_protection_status ⟨some l⟩ fs
      = ⟨specConfigLocked fs (appsPathOf l ++ ["configure.ini"])
           || (specBlockerPresent fs (appsPathOf l ++ ["ProductInfo.xml"])
               || specBlockerPresent fs
                    (parentOrSelf (appsPathOf l) ++ ["User Data", "Download", "update.exe"])),
         specConfigLocked fs (appsPathOf l ++ ["configure.ini"]),
         specBlockerPresent fs (appsPathOf l ++ ["ProductInfo.xml"])
           || specBlockerPresent fs
                (parentOrSelf (appsPathOf l) ++ ["User Data", "Download", "update.exe"])⟩ := by
  have hB : ∀ p : FilePath',
      (if pathExists fs p = true then
        (match entryAt fs p with
         | some n => nodeLen n == 0 && nodeRO n
         | none => false)
       else false) = specBlockerPresent fs p := by
    intro p
    rw [specBlockerPresent, ite_eq_and]
  have hC : ∀ p : FilePath',
      (if pathExists fs p = true then
        (match readFile fs p with
         | some content => containsSub content sentinelLine
         | none => false)
       else false) = specConfigLocked fs p := by
    intro p
    rw [specConfigLocked, ite_eq_and]
    cases hr : readFile fs p with
    | some c => rfl
    | none => rfl
  show (⟨_ || _ || _, _, _ || _⟩ : ProtectionStatus) = _
  rw [hB, hB, hC]
  have hor : ∀ a b c : Bool, (a || b || c) = (c || (a || b)) := by decide
  rw [ProtectionStatus.mk.injEq]
  exact ⟨hor _ _ _, rfl, rfl⟩

/-- C3: `check_protection_status` reports `blockers_exist` exactly when
    one of the two blocker paths is an existing zero-byte read-only entry,
    `config_locked` exactly when the config file exists and its text
    contains `last_version=1.0.0.0`, and `is_protected` as the disjunction
    of the two. -/
theorem check_protection_status_spec (l : FilePath') (fs : FS) :
    check_protection_status ⟨some l⟩ fs
      = ⟨specConfigLocked fs (appsPathOf l ++ ["configure.ini"])
           || (specBlockerPresent fs (appsPathOf l ++ ["ProductInfo.xml"])
               || specBlockerPresent fs
                    (parentOrSelf (appsPathOf l) ++ ["User Data", "Download", "update.exe"])),
         specConfigLocked fs (appsPathOf l ++ ["configure.ini"]),
         specBlockerPresent fs (appsPathOf l ++ ["ProductInfo.xml"])
           || specBlockerPresent fs
                (parentOrSelf (appsPathOf l) ++ ["User Data", "Download", "update.exe"])⟩ :=
  check_protection_status_eval l fs

/-- C4: the config-lock upsert replaces exactly the lines whose trimmed
    form starts with `last_version` by the sentinel line, keeps every
    other line in place, appends the sentinel when no line matched, and
    leaves the key occurring at most once if it occurred at most once
    before. -/
theorem lock_upsert_line_preservation (content : List Char) :
    (lockedLines (rustLines content)
       = if (rustLines content).any isLockKeyLine = true
         then (rustLines content).map
                (fun l => if isLockKeyLine l = true then sentinelLine else l)
         else rustLines content ++ [sentinelLine])
    ∧ ((rustLines content).countP isLockKeyLine ≤ 1 →
        (lockedLines (rustLines content)).countP isLockKeyLine ≤ 1) := by
  constructor
  · rw [lockedLines_eq]; rfl
  · intro hle
    rw [lockedLines_eq]
    by_cases h : (rustLines content).any isLockKeyLine = true
    · rw [if_pos h, List.countP_map]
      have hcong : (rustLines content).countP (isLockKeyLine ∘ lockLineMap)
          = (rustLines content).countP isLockKeyLine := by
        apply List.countP_congr
        intro x _
        show isLockKeyLine (lockLineMap x) = true ↔ isLockKeyLine x = true
        unfold lockLineMap
        by_cases hk : isLockKeyLine x = true
        · rw [if_pos hk, hk, isLockKeyLine_sentinel]
        · rw [if_neg hk]
      rw [hcong]
      exact hle
    · rw [if_neg h, List.countP_append]
      have h' : (rustLines content).any isLockKeyLine = false := by
        cases hb : (rustLines content).any isLockKeyLine
        · rfl
        · exact absurd hb h
      have h0 : (rustLines content).countP isLockKeyLine = 0 := by
        rw [List.countP_eq_zero]
        exact List.any_eq_false.1 h'
      rw [h0]
      simp [List.countP_cons, isLockKeyLine_sentinel]

/-- Witness for C4 at a concrete three-line config. -/
theorem lock_upsert_line_preservation_witness :
    (rustLines "a=1\nlast_version=old\nb=2".data).countP isLockKeyLine ≤ 1
    ∧ (lockedLines (rustLines "a=1\nlast_version=old\nb=2".data)).countP
        isLockKeyLine ≤ 1 :=
  ⟨by decide,
   (lock_upsert_line_preservation "a=1\nlast_version=old\nb=2".data).2 (by decide)⟩

/-- A small concrete installation used by several witnesses: the root,
    `CapCut` and `CapCut/Apps` directories exist and nothing else. -/
def baseFS : FS :=
  [(["home"], .dir false), (["home", "CapCut"], .dir false),
   (["home", "CapCut", "Apps"], .dir false)]

/-- C10: blocker creation runs `create_dir_all` for `User Data/Download`
    after the `ProductInfo.xml` step and before the `update.exe` blocker;
    a directory-creation failure is propagated as the step's error, and on
    success the directory exists and the `update.exe` blocker is created
    beneath it. -/
theorem create_dummy_files_creates_download_dir (fs : FS)
    (capcut_path apps_path : FilePath') (fs1 : FS)
    (h : create_readonly fs (apps_path ++ ["ProductInfo.xml"]) = (fs1, none)) :
    (∀ e, mkdirAllR fs1 (capcut_path ++ ["User Data", "Download"]) = (fs1, some e) →
       create_dummy_files fs capcut_path apps_path = (fs1, some e))
    ∧ (∀ fs2, mkdirAllR fs1 (capcut_path ++ ["User Data", "Download"]) = (fs2, none) →
        pathExists fs2 (capcut_path ++ ["User Data", "Download"]) = true
        ∧ create_dummy_files fs capcut_path apps_path
            = create_readonly fs2
                (capcut_path ++ ["User Data", "Download", "update.exe"])) := by
  have hred : create_dummy_files fs capcut_path apps_path
      = match mkdirAllR fs1 (capcut_path ++ ["User Data", "Download"]) with
        | (fs2, some e) => (fs2, some e)
        | (fs2, none) =>
          create_readonly fs2 (capcut_path ++ ["User Data", "Download", "update.exe"]) := by
    unfold create_dummy_files
    rw [h]
  constructor
  · intro e he
    rw [hred, he]
  · intro fs2 he
    refine ⟨mkdirAllR_pathExists he, ?_⟩
    rw [hred, he]

/-- Witness for C10: the download directory is missing at the start and
    the whole blocker-creation step nevertheless goes through, creating
    it. -/
theorem create_dummy_files_creates_download_dir_witness :
    create_readonly baseFS (["home", "CapCut", "Apps"] ++ ["ProductInfo.xml"])
        = ((create_readonly baseFS
            (["home", "CapCut", "Apps"] ++ ["ProductInfo.xml"])).1, none)
    ∧ pathExists baseFS (["home", "CapCut"] ++ ["User Data", "Download"]) = false
    ∧ (pathExists (mkdirAllR (create_readonly baseFS
          (["home", "CapCut", "Apps"] ++ ["ProductInfo.xml"])).1
            (["home", "CapCut"] ++ ["User Data", "Download"])).1
          (["home", "CapCut"] ++ ["User Data", "Download"]) = true
       ∧ create_dummy_files baseFS ["home", "CapCut"] ["home", "CapCut", "Apps"]
           = create_readonly (mkdirAllR (create_readonly baseFS
              (["home", "CapCut", "Apps"] ++ ["ProductInfo.xml"])).1
                (["home", "CapCut"] ++ ["User Data", "Download"])).1
              (["home", "CapCut"] ++ ["User Data", "Download", "update.exe"])) :=
  ⟨by decide, by decide,
   (create_dummy_files_creates_download_dir baseFS ["home", "CapCut"]
      ["home", "CapCut", "Apps"]
      (create_readonly baseFS
        (["home", "CapCut", "Apps"] ++ ["ProductInfo.xml"])).1 (by decide)).2
     (mkdirAllR (create_readonly baseFS
        (["home", "CapCut", "Apps"] ++ ["ProductInfo.xml"])).1
        (["home", "CapCut"] ++ ["User Data", "Download"])).1 (by decide)⟩

theorem deleteLoop_fail (orig : List FilePath') (p : FilePath')
    (ps2 : List FilePath') (e : String) :
    ∀ (ps1 : List FilePath') (fs fs1 : FS) (logs : List String),
    deleteAll fs ps1 = some fs1 →
    removeDirAllR (clearROUnder fs1 p) p = (clearROUnder fs1 p, some e) →
    deleteLoop orig fs logs (ps1 ++ p :: ps2)
      = (⟨false, some ("Failed to delete " ++ fileNameOf p ++ ": " ++ e),
          logs ++ (ps1 ++ [p]).map (fun q => "Deleting: " ++ fileNameOf q)⟩,
         clearROUnder fs1 p) := by
  intro ps1
  induction ps1 with
  | nil =>
    intro fs fs1 logs hda hfail
    have hfs : fs = fs1 := Option.some_injective _ hda
    subst hfs
    show deleteLoop orig fs logs (p :: ps2) = _
    simp only [deleteLoop, unset_readonly_recursive]
    rw [hfail]
    rfl
  | cons q ps1' ih =>
    intro fs fs1 logs hda hfail
    unfold deleteAll at hda
    cases hr : removeDirAllR (clearROUnder fs q) q with
    | mk fs' res =>
      rw [hr] at hda
      cases res with
      | some err =>
        have hda' : (none : Option FS) = some fs1 := hda
        exact absurd hda' (by simp)
      | none =>
        have hda' : deleteAll fs' ps1' = some fs1 := hda
        show deleteLoop orig fs logs ((q :: ps1') ++ p :: ps2) = _
        rw [List.cons_append]
        simp only [deleteLoop, unset_readonly_recursive]
        rw [hr]
        show deleteLoop orig fs' (logs ++ ["Deleting: " ++ fileNameOf q])
            (ps1' ++ p :: ps2) = _
        rw [ih fs' fs1 (logs ++ ["Deleting: " ++ fileNameOf q]) hda' hfail]
        simp [List.append_assoc]

/-- C6: `delete_versions` on the empty list succeeds with the single
    informational log line and no filesystem change; and whenever the
    first `ps1` deletions succeed and deleting `p` then fails, the whole
    call fails at `p` immediately: the later paths `ps2` do not influence
    the result at all, the already-completed deletions persist (with the
    best-effort read-only clearing under `p` applied), and the log names
    exactly the processed paths. -/
theorem delete_versions_short_circuit (fs : FS) :
    (delete_versions fs [] = (⟨true, none, ["[OK] No versions to delete"]⟩, fs))
    ∧ (∀ (ps1 : List FilePath') (p : FilePath') (ps2 : List FilePath')
         (fs1 : FS) (e : String),
        deleteAll fs ps1 = some fs1 →
        removeDirAllR (clearROUnder fs1 p) p = (clearROUnder fs1 p, some e) →
        delete_versions fs (ps1 ++ p :: ps2)
          = (⟨false, some ("Failed to delete " ++ fileNameOf p ++ ": " ++ e),
              (ps1 ++ [p]).map (fun q => "Deleting: " ++ fileNameOf q)⟩,
             clearROUnder fs1 p)) := by
  constructor
  · rfl
  · intro ps1 p ps2 fs1 e hda hfail
    unfold delete_versions
    rw [deleteLoop_fail (ps1 ++ p :: ps2) p ps2 e ps1 fs fs1 [] hda hfail]
    rw [List.nil_append]

/-- Witness for C6: one successful deletion, then a missing path fails,
    with a further path behind it that is never reached. -/
theorem delete_versions_short_circuit_witness :
    deleteAll (baseFS ++ [(["home", "CapCut", "Apps", "3.0"], .dir false)])
        [["home", "CapCut", "Apps", "3.0"]]
      = some ((deleteAll (baseFS ++ [(["home", "CapCut", "Apps", "3.0"], .dir false)])
          [["home", "CapCut", "Apps", "3.0"]]).getD [])
    ∧ delete_versions (baseFS ++ [(["home", "CapCut", "Apps", "3.0"], .dir false)])
        [["home", "CapCut", "Apps", "3.0"], ["gone"], ["later"]]
      = (⟨false, some ("Failed to delete " ++ fileNameOf ["gone"]
            ++ ": " ++ "no such file or directory"),
          ([["home", "CapCut", "Apps", "3.0"]] ++ [["gone"]]).map
            (fun q => "Deleting: " ++ fileNameOf q)⟩,
         clearROUnder ((deleteAll (baseFS
            ++ [(["home", "CapCut", "Apps", "3.0"], .dir false)])
              [["home", "CapCut", "Apps", "3.0"]]).getD []) ["gone"]) :=
  ⟨by decide,
   (delete_versions_short_circuit
      (baseFS ++ [(["home", "CapCut", "Apps", "3.0"], .dir false)])).2
     [["home", "CapCut", "Apps", "3.0"]] ["gone"] [["later"]]
     ((deleteAll (baseFS ++ [(["home", "CapCut", "Apps", "3.0"], .dir false)])
        [["home", "CapCut", "Apps", "3.0"]]).getD [])
     "no such file or directory" (by decide) (by decide)⟩

/-! ### No clear-readonly warning lines (support for C8) -/

theorem ne_append_of_incomparable (a b : String)
    (h1 : a.data.isPrefixOf b.data = false) (h2 : b.data.isPrefixOf a.data = false) :
    ∀ (x y : String), a ++ x ≠ b ++ y := by
  intro x y heq
  have hd : a.data ++ x.data = b.data ++ y.data := by
    rw [← String.data_append, ← String.data_append, heq]
  have hpa : a.data <+: (a.data ++ x.data) := List.prefix_append _ _
  have hpb : b.data <+: (a.data ++ x.data) := by
    rw [hd]; exact List.prefix_append _ _
  rcases List.prefix_or_prefix_of_prefix hpa hpb with h | h
  · rw [List.isPrefixOf_iff_prefix.2 h] at h1
    exact Bool.noConfusion h1
  · rw [List.isPrefixOf_iff_prefix.2 h] at h2
    exact Bool.noConfusion h2

/-- A string whose text is prefix-incomparable with `"[!] Warning: "` is
    not a warning line. -/
theorem not_warn_of_incomparable (s : String)
    (h1 : ("[!] Warning: ").data.isPrefixOf s.data = false)
    (h2 : s.data.isPrefixOf ("[!] Warning: ").data = false) :
    ∀ e, s ≠ "[!] Warning: " ++ e := by
  intro e heq
  have h := ne_append_of_incomparable s "[!] Warning: " h2 h1 "" e
  rw [String.append_empty] at h
  exact h heq

theorem noWarn_deleting (x : String) : ∀ e, "Deleting: " ++ x ≠ "[!] Warning: " ++ e :=
  ne_append_of_incomparable "Deleting: " "[!] Warning: " (by decide) (by decide) x

theorem deleteLoop_noWarn (orig : List FilePath') :
    ∀ (ps : List FilePath') (fs : FS) (logs : List String),
    (∀ s ∈ logs, ∀ e, s ≠ "[!] Warning: " ++ e) →
    ∀ s ∈ (deleteLoop orig fs logs ps).1.logs, ∀ e, s ≠ "[!] Warning: " ++ e := by
  intro ps
  induction ps with
  | nil =>
    intro fs logs h s hs e
    simp only [deleteLoop] at hs
    rcases List.mem_append.1 hs with hs | hs
    · exact h s hs e
    · rw [List.mem_singleton.1 hs]
      by_cases ho : orig.isEmpty
      · rw [if_pos ho]
        exact not_warn_of_incomparable _ (by decide) (by decide) e
      · rw [if_neg ho]
        have := ne_append_of_incomparable "[OK] Deleted " "[!] Warning: "
          (by decide) (by decide) (toString orig.length ++ " version(s)") e
        rw [← String.append_assoc] at this
        exact this
  | cons p ps' ih =>
    intro fs logs h s hs e
    simp only [deleteLoop, unset_readonly_recursive] at hs
    have hmem : ∀ t ∈ logs ++ ["Deleting: " ++ fileNameOf p],
        ∀ e', t ≠ "[!] Warning: " ++ e' := by
      intro t ht e'
      rcases List.mem_append.1 ht with ht | ht
      · exact h t ht e'
      · rw [List.mem_singleton.1 ht]
        exact noWarn_deleting (fileNameOf p) e'
    cases hr : removeDirAllR (clearROUnder fs p) p with
    | mk fs2 res =>
      rw [hr] at hs
      cases res with
      | some err =>
        have hs' : s ∈ logs ++ ["Deleting: " ++ fileNameOf p] := hs
        exact hmem s hs' e
      | none =>
        have hs' : s ∈ (deleteLoop orig fs2
            (logs ++ ["Deleting: " ++ fileNameOf p]) ps').1.logs := hs
        exact ih fs2 (logs ++ ["Deleting: " ++ fileNameOf p]) hmem s hs' e

theorem removeBlockerStep_noWarn (fs : FS) (p : FilePath')
    (startLog okLog failPrefix : String)
    (hstart : ∀ e, startLog ≠ "[!] Warning: " ++ e)
    (hok : ∀ e, okLog ≠ "[!] Warning: " ++ e)
    (hfail : ∀ x e, failPrefix ++ x ≠ "[!] Warning: " ++ e) :
    ∀ s ∈ (removeBlockerStep fs p startLog okLog failPrefix).2,
      ∀ e, s ≠ "[!] Warning: " ++ e := by
  intro s hs e
  unfold removeBlockerStep unset_readonly_recursive at hs
  by_cases hex : pathExists fs p = true
  · rw [if_pos hex] at hs
    dsimp only at hs
    cases hr : removeFileR (clearROUnder fs p) p with
    | mk fs2 res =>
      rw [hr] at hs
      cases res with
      | some err =>
        have hs' : s ∈ [startLog] ++ [failPrefix ++ err] := hs
        rcases List.mem_append.1 hs' with hss | hss
        · rw [List.mem_singleton.1 hss]; exact hstart e
        · rw [List.mem_singleton.1 hss]; exact hfail err e
      | none =>
        have hs' : s ∈ [startLog] ++ [okLog] := hs
        rcases List.mem_append.1 hs' with hss | hss
        · rw [List.mem_singleton.1 hss]; exact hstart e
        · rw [List.mem_singleton.1 hss]; exact hok e
  · rw [if_neg hex] at hs
    exact absurd hs (List.not_mem_nil s)

theorem configResetStep_noWarn (fs : FS) (p : FilePath') :
    ∀ s ∈ (configResetStep fs p).2, ∀ e, s ≠ "[!] Warning: " ++ e := by
  intro s hs e
  unfold configResetStep at hs
  by_cases hex : pathExists fs p = true
  · rw [if_pos hex] at hs
    cases hrf : readFile fs p with
    | none =>
      rw [hrf] at hs
      rw [List.mem_singleton.1 hs]
      exact not_warn_of_incomparable _ (by decide) (by decide) e
    | some content =>
      rw [hrf] at hs
      dsimp only at hs
      cases hw : fsWriteR fs p
          (joinNL ((rustLines content).filter (fun line => !(isLockKeyLine line)))) with
      | mk fs2 res =>
        rw [hw] at hs
        cases res with
        | some err =>
          have hs' : s ∈ ["Resetting configure.ini..."]
              ++ ["[!] Could not reset configure.ini: " ++ err] := hs
          rcases List.mem_append.1 hs' with hss | hss
          · rw [List.mem_singleton.1 hss]
            exact not_warn_of_incomparable _ (by decide) (by decide) e
          · rw [List.mem_singleton.1 hss]
            exact ne_append_of_incomparable "[!] Could not reset configure.ini: "
              "[!] Warning: " (by decide) (by decide) err e
        | none =>
          have hs' : s ∈ ["Resetting configure.ini..."]
              ++ ["[OK] configure.ini reset"] := hs
          rcases List.mem_append.1 hs' with hss | hss
          · rw [List.mem_singleton.1 hss]
            exact not_warn_of_incomparable _ (by decide) (by decide) e
          · rw [List.mem_singleton.1 hss]
            exact not_warn_of_incomparable _ (by decide) (by decide) e
  · rw [if_neg hex] at hs
    exact absurd hs (List.not_mem_nil s)

/-- C8 (implicit): the recursive read-only-clearing helper returns `Ok`
    on every input, so the `[!] Warning:` branches guarding it are
    unreachable: no log line produced by `delete_versions` or
    `remove_protection` is ever of the form `[!] Warning: <e>`. -/
theorem unset_readonly_never_fails :
    (∀ (fs : FS) (p : FilePath'), (unset_readonly_recursive fs p).2 = none)
    ∧ (∀ (fs : FS) (paths : List FilePath'),
        ∀ s ∈ (delete_versions fs paths).1.logs, ∀ e, s ≠ "[!] Warning: " ++ e)
    ∧ (∀ (env : Env) (fs : FS),
        ∀ s ∈ (remove_protection env fs).1.logs, ∀ e, s ≠ "[!] Warning: " ++ e) := by
  refine ⟨fun fs p => rfl, ?_, ?_⟩
  · intro fs paths s hs e
    exact deleteLoop_noWarn paths paths fs [] (fun t ht => absurd ht (List.not_mem_nil t))
      s hs e
  · intro env fs s hs e
    obtain ⟨o⟩ := env
    cases o with
    | none => exact absurd hs (List.not_mem_nil s)
    | some l =>
      simp only [remove_protection] at hs
      rcases List.mem_append.1 hs with hs1 | hfin
      · rcases List.mem_append.1 hs1 with hs2 | hs3
        · rcases List.mem_append.1 hs2 with hsa | hsb
          · exact removeBlockerStep_noWarn _ _ _ _ _
              (not_warn_of_incomparable _ (by decide) (by decide))
              (not_warn_of_incomparable _ (by decide) (by decide))
              (ne_append_of_incomparable "[!] Could not remove ProductInfo.xml: "
                "[!] Warning: " (by decide) (by decide)) s hsa e
          · exact removeBlockerStep_noWarn _ _ _ _ _
              (not_warn_of_incomparable _ (by decide) (by decide))
              (not_warn_of_incomparable _ (by decide) (by decide))
              (ne_append_of_incomparable "[!] Could not remove update.exe: "
                "[!] Warning: " (by decide) (by decide)) s hsb e
        · exact configResetStep_noWarn _ _ s hs3 e
      · rw [List.mem_singleton.1 hfin]
        exact not_warn_of_incomparable _ (by decide) (by decide) e

/-- Witness exercising C8's statement on concrete inputs. -/
theorem unset_readonly_never_fails_witness :
    ("[OK] No versions to delete" ∈ (delete_versions baseFS []).1.logs)
    ∧ "[OK] No versions to delete" ≠ "[!] Warning: " ++ "boom" :=
  ⟨by decide,
   unset_readonly_never_fails.2.1 baseFS [] "[OK] No versions to delete"
     (by decide) "boom"⟩

/-! ### Success-extraction lemmas for C1/C2 -/

theorem isPrefixOf_self (p : FilePath') : p.isPrefixOf p = true :=
  List.isPrefixOf_iff_prefix.2 List.prefix_rfl

theorem isPrefixOf_dropLast_false {p : FilePath'} (hp : p ≠ []) :
    p.isPrefixOf p.dropLast = false := by
  cases hb : p.isPrefixOf p.dropLast
  · rfl
  · exfalso
    have hle := (List.isPrefixOf_iff_prefix.1 hb).length_le
    rw [List.length_dropLast] at hle
    have hpos : 0 < p.length := List.length_pos.2 hp
    omega

theorem dropLast_ne_self {p : FilePath'} (hp : p ≠ []) : p.dropLast ≠ p := by
  intro h
  have := congrArg List.length h
  rw [List.length_dropLast] at this
  have hpos : 0 < p.length := List.length_pos.2 hp
  omega

theorem fsWriteR_ok {fs : FS} {p : FilePath'} {c : List Char} {fs' : FS}
    (h : fsWriteR fs p c = (fs', none)) : fs' = setE fs p (.file c false) := by
  unfold fsWriteR at h
  cases he : entryAt fs p with
  | some n =>
    cases n with
    | file cc ro =>
      cases ro with
      | true => rw [he] at h; exact absurd (congrArg Prod.snd h) (by simp)
      | false =>
        rw [he] at h
        exact (congrArg Prod.fst h).symm
    | dir ro => rw [he] at h; exact absurd (congrArg Prod.snd h) (by simp)
  | none =>
    rw [he] at h
    by_cases hd : isDirAt fs ((rustParent p).getD p) = true
    · rw [if_pos hd] at h
      exact (congrArg Prod.fst h).symm
    · rw [if_neg hd] at h
      exact absurd (congrArg Prod.snd h) (by simp)

theorem fsWriteR_ok_parent {fs : FS} {p : FilePath'} {c : List Char} {fs' : FS}
    (h : fsWriteR fs p c = (fs', none)) (hn : entryAt fs p = none) :
    isDirAt fs ((rustParent p).getD p) = true := by
  unfold fsWriteR at h
  rw [hn] at h
  by_cases hd : isDirAt fs ((rustParent p).getD p) = true
  · exact hd
  · rw [if_neg hd] at h
    exact absurd (congrArg Prod.snd h) (by simp)

theorem removeFileR_ok {fs : FS} {p : FilePath'} {fs' : FS}
    (h : removeFileR fs p = (fs', none)) : fs' = removeEntry fs p := by
  unfold removeFileR at h
  cases he : entryAt fs p with
  | some n =>
    cases n with
    | file cc ro =>
      cases ro with
      | true => rw [he] at h; exact absurd (congrArg Prod.snd h) (by simp)
      | false => rw [he] at h; exact (congrArg Prod.fst h).symm
    | dir ro => rw [he] at h; exact absurd (congrArg Prod.snd h) (by simp)
  | none => rw [he] at h; exact absurd (congrArg Prod.snd h) (by simp)

theorem removeDirAllR_ok {fs : FS} {p : FilePath'} {fs' : FS}
    (h : removeDirAllR fs p = (fs', none)) : fs' = eraseUnder fs p := by
  unfold removeDirAllR at h
  by_cases h1 : pathExists fs p = false
  · rw [if_pos h1] at h; exact absurd (congrArg Prod.snd h) (by simp)
  · rw [if_neg h1] at h
    by_cases h2 : isFileAt fs p = true
    · rw [if_pos h2] at h; exact absurd (congrArg Prod.snd h) (by simp)
    · rw [if_neg h2] at h
      by_cases h3 : roFileUnder fs p = true
      · rw [if_pos h3] at h; exact absurd (congrArg Prod.snd h) (by simp)
      · rw [if_neg h3] at h
        exact (congrArg Prod.fst h).symm

theorem mkdirAllR_ok {fs : FS} {p : FilePath'} {fs' : FS}
    (h : mkdirAllR fs p = (fs', none)) :
    fs' = addDirsFrom fs [] p ∧ hasFileOnPath fs [] p = false := by
  unfold mkdirAllR at h
  by_cases hf : hasFileOnPath fs [] p = true
  · rw [if_pos hf] at h; exact absurd (congrArg Prod.snd h) (by simp)
  · rw [if_neg hf] at h
    refine ⟨(congrArg Prod.fst h).symm, ?_⟩
    cases hb : hasFileOnPath fs [] p
    · rfl
    · exact absurd hb hf

theorem create_readonly_ok_facts {fs : FS} {p : FilePath'} {fs' : FS} (hp : p ≠ [])
    (h : create_readonly fs p = (fs', none)) :
    entryAt fs' p = some (.file [] true)
    ∧ (∀ q, p.isPrefixOf q = false → entryAt fs' q = entryAt fs q)
    ∧ (p.dropLast ≠ [] → ∃ b, entryAt fs p.dropLast = some (.dir b)) := by
  unfold create_readonly unset_readonly_recursive at h
  by_cases hex : pathExists fs p = true
  · rw [if_pos hex] at h
    dsimp only at h
    by_cases hdir : isDirAt (clearROUnder fs p) p = true
    · rw [if_pos hdir] at h
      cases hrem : removeDirAllR (clearROUnder fs p) p with
      | mk fsR res =>
        rw [hrem] at h
        cases res with
        | some err =>
          have h' : ((fsR, some err) : FS × Option String) = (fs', none) := h
          exact absurd (congrArg Prod.snd h') (by simp)
        | none =>
          have hfsR : fsR = eraseUnder (clearROUnder fs p) p := removeDirAllR_ok hrem
          have hRp : entryAt fsR p = none := by
            rw [hfsR, entryAt_eraseUnder, if_pos (isPrefixOf_self p)]
          have hRframe : ∀ q, p.isPrefixOf q = false → entryAt fsR q = entryAt fs q := by
            intro q hq
            rw [hfsR, entryAt_eraseUnder, if_neg (by simp [hq]), entryAt_clearROUnder,
              hq]
            cases entryAt fs q <;> rfl
          have h2 : (match fsWriteR fsR p [] with
              | (fs2, some e) => (fs2, some e)
              | (fs2, none) => (attribSetRO fs2 p, none)) = (fs', none) := h
          cases hw : fsWriteR fsR p [] with
          | mk fsW wres =>
            rw [hw] at h2
            cases wres with
            | some err =>
              have h' : ((fsW, some err) : FS × Option String) = (fs', none) := h2
              exact absurd (congrArg Prod.snd h') (by simp)
            | none =>
              have hW : fsW = setE fsR p (.file [] false) := fsWriteR_ok hw
              have h' : ((attribSetRO fsW p, none) : FS × Option String)
                  = (fs', none) := h2
              have hfs' : fs' = attribSetRO fsW p := (congrArg Prod.fst h').symm
              refine ⟨?_, ?_, ?_⟩
              · rw [hfs', entryAt_attribSetRO, hW, entryAt_setE, if_pos rfl]
                simp [setRONode]
              · intro q hq
                have hqp : q ≠ p := fun hh => by
                  rw [hh, isPrefixOf_self] at hq; exact Bool.noConfusion hq
                rw [hfs', entryAt_attribSetRO, hW, entryAt_setE, if_neg hqp,
                  hRframe q hq]
                cases entryAt fs q <;> simp [hqp]
              · intro hdl
                have hpar := fsWriteR_ok_parent hw hRp
                rw [show (rustParent p).getD p = p.dropLast by
                  unfold rustParent; rw [if_neg hp]; rfl] at hpar
                unfold isDirAt at hpar
                rw [hRframe p.dropLast (isPrefixOf_dropLast_false hp)] at hpar
                rw [show p.dropLast.isEmpty = false by
                  cases hdl' : p.dropLast with
                  | nil => exact absurd hdl' hdl
                  | cons a t => rfl] at hpar
                rw [Bool.false_or] at hpar
                cases hv : entryAt fs p.dropLast with
                | none => rw [hv] at hpar; exact Bool.noConfusion hpar
                | some n =>
                  cases n with
                  | file cc ro => rw [hv] at hpar; exact Bool.noConfusion hpar
                  | dir b => exact ⟨b, rfl⟩
    · rw [if_neg hdir] at h
      cases hrem : removeFileR (clearROUnder fs p) p with
      | mk fsR res =>
        rw [hrem] at h
        cases res with
        | some err =>
          have h' : ((fsR, some err) : FS × Option String) = (fs', none) := h
          exact absurd (congrArg Prod.snd h') (by simp)
        | none =>
          have hfsR : fsR = removeEntry (clearROUnder fs p) p := removeFileR_ok hrem
          have hRp : entryAt fsR p = none := by
            rw [hfsR, entryAt_removeEntry, if_pos rfl]
          have hRframe : ∀ q, p.isPrefixOf q = false → entryAt fsR q = entryAt fs q := by
            intro q hq
            have hqp : q ≠ p := fun hh => by
              rw [hh, isPrefixOf_self] at hq; exact Bool.noConfusion hq
            rw [hfsR, entryAt_removeEntry, if_neg hqp, entryAt_clearROUnder, hq]
            cases entryAt fs q <;> rfl
          have h2 : (match fsWriteR fsR p [] with
              | (fs2, some e) => (fs2, some e)
              | (fs2, none) => (attribSetRO fs2 p, none)) = (fs', none) := h
          cases hw : fsWriteR fsR p [] with
          | mk fsW wres =>
            rw [hw] at h2
            cases wres with
            | some err =>
              have h' : ((fsW, some err) : FS × Option String) = (fs', none) := h2
              exact absurd (congrArg Prod.snd h') (by simp)
            | none =>
              have hW : fsW = setE fsR p (.file [] false) := fsWriteR_ok hw
              have h' : ((attribSetRO fsW p, none) : FS × Option String)
                  = (fs', none) := h2
              have hfs' : fs' = attribSetRO fsW p := (congrArg Prod.fst h').symm
              refine ⟨?_, ?_, ?_⟩
              · rw [hfs', entryAt_attribSetRO, hW, entryAt_setE, if_pos rfl]
                simp [setRONode]
              · intro q hq
                have hqp : q ≠ p := fun hh => by
                  rw [hh, isPrefixOf_self] at hq; exact Bool.noConfusion hq
                rw [hfs', entryAt_attribSetRO, hW, entryAt_setE, if_neg hqp,
                  hRframe q hq]
                cases entryAt fs q <;> simp [hqp]
              · intro hdl
                have hpar := fsWriteR_ok_parent hw hRp
                rw [show (rustParent p).getD p = p.dropLast by
                  unfold rustParent; rw [if_neg hp]; rfl] at hpar
                unfold isDirAt at hpar
                rw [hRframe p.dropLast (isPrefixOf_dropLast_false hp)] at hpar
                rw [show p.dropLast.isEmpty = false by
                  cases hdl' : p.dropLast with
                  | nil => exact absurd hdl' hdl
                  | cons a t => rfl] at hpar
                rw [Bool.false_or] at hpar
                cases hv : entryAt fs p.dropLast with
                | none => rw [hv] at hpar; exact Bool.noConfusion hpar
                | some n =>
                  cases n with
                  | file cc ro => rw [hv] at hpar; exact Bool.noConfusion hpar
                  | dir b => exact ⟨b, rfl⟩
  · rw [if_neg hex] at h
    have hfsp : entryAt fs p = none := by
      cases hv : entryAt fs p with
      | none => rfl
      | some n =>
        exfalso
        apply hex
        unfold pathExists
        rw [hv]
        simp
    have h2 : (match fsWriteR fs p [] with
        | (fs2, some e) => (fs2, some e)
        | (fs2, none) => (attribSetRO fs2 p, none)) = (fs', none) := h
    cases hw : fsWriteR fs p [] with
    | mk fsW wres =>
      rw [hw] at h2
      cases wres with
      | some err =>
        have h' : ((fsW, some err) : FS × Option String) = (fs', none) := h2
        exact absurd (congrArg Prod.snd h') (by simp)
      | none =>
        have hW : fsW = setE fs p (.file [] false) := fsWriteR_ok hw
        have h' : ((attribSetRO fsW p, none) : FS × Option String) = (fs', none) := h2
        have hfs' : fs' = attribSetRO fsW p := (congrArg Prod.fst h').symm
        refine ⟨?_, ?_, ?_⟩
        · rw [hfs', entryAt_attribSetRO, hW, entryAt_setE, if_pos rfl]
          simp [setRONode]
        · intro q hq
          have hqp : q ≠ p := fun hh => by
            rw [hh, isPrefixOf_self] at hq; exact Bool.noConfusion hq
          rw [hfs', entryAt_attribSetRO, hW, entryAt_setE, if_neg hqp]
          cases entryAt fs q <;> simp [hqp]
        · intro hdl
          have hpar := fsWriteR_ok_parent hw hfsp
          rw [show (rustParent p).getD p = p.dropLast by
            unfold rustParent; rw [if_neg hp]; rfl] at hpar
          unfold isDirAt at hpar
          rw [show p.dropLast.isEmpty = false by
            cases hdl' : p.dropLast with
            | nil => exact absurd hdl' hdl
            | cons a t => rfl] at hpar
          rw [Bool.false_or] at hpar
          cases hv : entryAt fs p.dropLast with
          | none => rw [hv] at hpar; exact Bool.noConfusion hpar
          | some n =>
            cases n with
            | file cc ro => rw [hv] at hpar; exact Bool.noConfusion hpar
            | dir b => exact ⟨b, rfl⟩

theorem append_cons_isEmpty_false (l : FilePath') (a : String) (t : List String) :
    (l ++ a :: t).isEmpty = false := by
  cases l with
  | nil => rfl
  | cons x xs => rfl

theorem append_cons_ne_nil (l : FilePath') (a : String) (t : List String) :
    l ++ a :: t ≠ [] := by
  intro h
  have := congrArg List.isEmpty h
  rw [append_cons_isEmpty_false] at this
  exact Bool.noConfusion this

theorem pathExists_of_entry {fs : FS} {p : FilePath'} {n : Node}
    (h : entryAt fs p = some n) : pathExists fs p = true := by
  unfold pathExists
  rw [h]
  simp

theorem create_readonly_on_file {fs : FS} {p : FilePath'} {c : List Char}
    {ro : Bool} {b : Bool} (hp : p ≠ [])
    (hf : entryAt fs p = some (.file c ro))
    (hparent : entryAt fs p.dropLast = some (.dir b)) :
    create_readonly fs p
      = (attribSetRO (setE (removeEntry (clearROUnder fs p) p) p (.file [] false)) p,
         none) := by
  have hclear : entryAt (clearROUnder fs p) p = some (.file c false) := by
    rw [entryAt_clearROUnder, hf]
    simp [isPrefixOf_self, clearRONode]
  have hdir : isDirAt (clearROUnder fs p) p = false := by
    unfold isDirAt
    rw [hclear]
    cases p with
    | nil => exact absurd rfl hp
    | cons x xs => rfl
  have hrf : removeFileR (clearROUnder fs p) p
      = (removeEntry (clearROUnder fs p) p, none) := by
    unfold removeFileR
    rw [hclear]
  have hnone : entryAt (removeEntry (clearROUnder fs p) p) p = none := by
    rw [entryAt_removeEntry, if_pos rfl]
  have hpdir : isDirAt (removeEntry (clearROUnder fs p) p)
      ((rustParent p).getD p) = true := by
    rw [show (rustParent p).getD p = p.dropLast by
      unfold rustParent; rw [if_neg hp]; rfl]
    unfold isDirAt
    rw [entryAt_removeEntry, if_neg (dropLast_ne_self hp), entryAt_clearROUnder,
      hparent, isPrefixOf_dropLast_false hp]
    simp
  have hwr : fsWriteR (removeEntry (clearROUnder fs p) p) p []
      = (setE (removeEntry (clearROUnder fs p) p) p (.file [] false), none) := by
    unfold fsWriteR
    rw [hnone, if_pos hpdir]
  unfold create_readonly unset_readonly_recursive
  rw [if_pos (pathExists_of_entry hf)]
  dsimp only
  rw [if_neg (by rw [hdir]; exact fun hh => Bool.noConfusion hh), hrf]
  show (match fsWriteR (removeEntry (clearROUnder fs p) p) p [] with
    | (fs2, some e) => (fs2, some e)
    | (fs2, none) => (attribSetRO fs2 p, none)) = _
  rw [hwr]

theorem lock_configuration_on_file {fs : FS} {apps : FilePath'} {c : List Char}
    (hf : entryAt fs (apps ++ ["configure.ini"]) = some (.file c false)) :
    lock_configuration fs apps
      = (setE fs (apps ++ ["configure.ini"]) (.file (lockTransform c) false), none) := by
  have hread : configReadContent fs (apps ++ ["configure.ini"]) = c := by
    unfold configReadContent readFile
    rw [if_pos (pathExists_of_entry hf), hf]
    rfl
  unfold lock_configuration
  rw [hread]
  unfold fsWriteR
  rw [hf]

theorem removeBlockerStep_on_file {fs : FS} {p : FilePath'} {c : List Char}
    {ro : Bool} (hf : entryAt fs p = some (.file c ro))
    (sL oL fP : String) :
    removeBlockerStep fs p sL oL fP
      = (removeEntry (clearROUnder fs p) p, [sL, oL]) := by
  have hclear : entryAt (clearROUnder fs p) p = some (.file c false) := by
    rw [entryAt_clearROUnder, hf]
    simp [isPrefixOf_self, clearRONode]
  have hrf : removeFileR (clearROUnder fs p) p
      = (removeEntry (clearROUnder fs p) p, none) := by
    unfold removeFileR
    rw [hclear]
  unfold removeBlockerStep unset_readonly_recursive
  rw [if_pos (pathExists_of_entry hf)]
  dsimp only
  rw [hrf]
  rfl

theorem configResetStep_on_file {fs : FS} {p : FilePath'} {c : List Char}
    (hf : entryAt fs p = some (.file c false)) :
    configResetStep fs p
      = (setE fs p (.file (joinNL ((rustLines c).filter
            (fun line => !(isLockKeyLine line)))) false),
         ["Resetting configure.ini...", "[OK] configure.ini reset"]) := by
  have hread : readFile fs p = some c := by
    unfold readFile; rw [hf]
  have hwr : fsWriteR fs p (joinNL ((rustLines c).filter
      (fun line => !(isLockKeyLine line)))) = (setE fs p (.file (joinNL
        ((rustLines c).filter (fun line => !(isLockKeyLine line)))) false), none) := by
    unfold fsWriteR
    rw [hf]
  unfold configResetStep
  rw [if_pos (pathExists_of_entry hf)]
  dsimp only
  rw [hread]
  dsimp only
  rw [hwr]
  rfl

/-! ### The protected state reached by a successful apply -/

def cfgPath (l : FilePath') : FilePath' := l ++ ["CapCut", "Apps", "configure.ini"]

def pinfoPath (l : FilePath') : FilePath' := l ++ ["CapCut", "Apps", "ProductInfo.xml"]

def dlPath (l : FilePath') : FilePath' := l ++ ["CapCut", "User Data", "Download"]

def updPath (l : FilePath') : FilePath' :=
  l ++ ["CapCut", "User Data", "Download", "update.exe"]

def appsP (l : FilePath') : FilePath' := l ++ ["CapCut", "Apps"]

theorem cfg_norm (l : FilePath') : appsPathOf l ++ ["configure.ini"] = cfgPath l := by
  simp [appsPathOf, cfgPath]

theorem pinfo_norm (l : FilePath') :
    appsPathOf l ++ ["ProductInfo.xml"] = pinfoPath l := by
  simp [appsPathOf, pinfoPath]

theorem root_norm (l : FilePath') : parentOrSelf (appsPathOf l) = l ++ ["CapCut"] := by
  unfold parentOrSelf rustParent appsPathOf
  rw [if_neg (append_cons_ne_nil l "CapCut" ["Apps"])]
  show (l ++ ["CapCut", "Apps"]).dropLast = l ++ ["CapCut"]
  have h : l ++ ["CapCut", "Apps"] = (l ++ ["CapCut"]) ++ ["Apps"] := by
    simp
  rw [h, List.dropLast_concat]

theorem dl_norm (l : FilePath') :
    parentOrSelf (appsPathOf l) ++ ["User Data", "Download"] = dlPath l := by
  rw [root_norm]
  simp [dlPath]

theorem upd_norm (l : FilePath') :
    parentOrSelf (appsPathOf l) ++ ["User Data", "Download", "update.exe"]
      = updPath l := by
  rw [root_norm]
  simp [updPath]

theorem pfx_l (l : FilePath') (A B : List String) (h : A.isPrefixOf B = false) :
    (l ++ A).isPrefixOf (l ++ B) = false := by
  rw [isPrefixOf_append_cancel]; exact h

theorem not_prefix_l (l : FilePath') (A B : List String)
    (h : A.isPrefixOf B = false) : ¬ (l ++ A <+: l ++ B) := by
  intro hc
  rw [List.isPrefixOf_iff_prefix.2 ((List.prefix_append_right_inj l).1 hc)] at h
  exact Bool.noConfusion h

theorem ne_of_isPrefixOf_false {p q : FilePath'} (h : p.isPrefixOf q = false) :
    p ≠ q := by
  intro hh
  rw [hh, isPrefixOf_self] at h
  exact Bool.noConfusion h

theorem dropLast_append_last (l : FilePath') (A : List String) (a : String) :
    (l ++ (A ++ [a])).dropLast = l ++ A := by
  rw [← List.append_assoc]
  exact List.dropLast_concat

/-- Everything a successful `apply` with both options leaves behind, stated
    about the five relevant paths. -/
def ProtectedState (l : FilePath') (fs1 : FS) (c0 : List Char) : Prop :=
  entryAt fs1 (cfgPath l) = some (.file (lockTransform c0) false)
  ∧ entryAt fs1 (pinfoPath l) = some (.file [] true)
  ∧ entryAt fs1 (updPath l) = some (.file [] true)
  ∧ (∃ b, entryAt fs1 (appsP l) = some (.dir b))
  ∧ hasFileOnPath fs1 [] (dlPath l) = false
  ∧ (∃ b, entryAt fs1 (dlPath l) = some (.dir b))

theorem create_dummy_files_ok {fs : FS} {root apps : FilePath'} {fs1 : FS}
    (h : create_dummy_files fs root apps = (fs1, none)) :
    ∃ fsB fsC, create_readonly fs (apps ++ ["ProductInfo.xml"]) = (fsB, none)
      ∧ mkdirAllR fsB (root ++ ["User Data", "Download"]) = (fsC, none)
      ∧ create_readonly fsC (root ++ ["User Data", "Download", "update.exe"])
          = (fs1, none) := by
  unfold create_dummy_files at h
  cases h1 : create_readonly fs (apps ++ ["ProductInfo.xml"]) with
  | mk fsB r1 =>
    rw [h1] at h
    cases r1 with
    | some e =>
      have h' : ((fsB, some e) : FS × Option String) = (fs1, none) := h
      exact absurd (congrArg Prod.snd h') (by simp)
    | none =>
      have h2' : (match mkdirAllR fsB (root ++ ["User Data", "Download"]) with
          | (fs2, some e) => (fs2, some e)
          | (fs2, none) =>
            create_readonly fs2 (root ++ ["User Data", "Download", "update.exe"]))
          = (fs1, none) := h
      cases h2 : mkdirAllR fsB (root ++ ["User Data", "Download"]) with
      | mk fsC r2 =>
        rw [h2] at h2'
        cases r2 with
        | some e =>
          have h'' : ((fsC, some e) : FS × Option String) = (fs1, none) := h2'
          exact absurd (congrArg Prod.snd h'') (by simp)
        | none =>
          have h3 : create_readonly fsC
              (root ++ ["User Data", "Download", "update.exe"]) = (fs1, none) := h2'
          exact ⟨fsB, fsC, rfl, h2, h3⟩

theorem apply_steps_protected (l : FilePath') (fs fsA fs1 : FS)
    (hlock : lock_configuration fs (appsPathOf l) = (fsA, none))
    (hdum : create_dummy_files fsA (parentOrSelf (appsPathOf l)) (appsPathOf l)
      = (fs1, none)) :
    ProtectedState l fs1 (configReadContent fs (cfgPath l)) := by
  have hlock' : fsWriteR fs (cfgPath l)
      (lockTransform (configReadContent fs (cfgPath l))) = (fsA, none) := by
    have h := hlock
    unfold lock_configuration at h
    rwa [cfg_norm] at h
  have hA : fsA = setE fs (cfgPath l)
      (.file (lockTransform (configReadContent fs (cfgPath l))) false) :=
    fsWriteR_ok hlock'
  rcases create_dummy_files_ok hdum with ⟨fsB, fsC, hB, hC, hD⟩
  rw [pinfo_norm] at hB
  rw [dl_norm] at hC
  rw [upd_norm] at hD
  have hpinfo_ne : pinfoPath l ≠ [] := append_cons_ne_nil l "CapCut" _
  have hupd_ne : updPath l ≠ [] := append_cons_ne_nil l "CapCut" _
  obtain ⟨hBp, hBframe, hBparent⟩ := create_readonly_ok_facts hpinfo_ne hB
  obtain ⟨hCeq, hCfile⟩ := mkdirAllR_ok hC
  obtain ⟨hDp, hDframe, hDparent⟩ := create_readonly_ok_facts hupd_ne hD
  have d1 : (updPath l).isPrefixOf (cfgPath l) = false :=
    pfx_l l ["CapCut", "User Data", "Download", "update.exe"]
      ["CapCut", "Apps", "configure.ini"] (by decide)
  have d2 : (updPath l).isPrefixOf (pinfoPath l) = false :=
    pfx_l l ["CapCut", "User Data", "Download", "update.exe"]
      ["CapCut", "Apps", "ProductInfo.xml"] (by decide)
  have d3 : (updPath l).isPrefixOf (appsP l) = false :=
    pfx_l l ["CapCut", "User Data", "Download", "update.exe"]
      ["CapCut", "Apps"] (by decide)
  have d4 : (updPath l).isPrefixOf (dlPath l) = false :=
    pfx_l l ["CapCut", "User Data", "Download", "update.exe"]
      ["CapCut", "User Data", "Download"] (by decide)
  have d5 : (pinfoPath l).isPrefixOf (cfgPath l) = false :=
    pfx_l l ["CapCut", "Apps", "ProductInfo.xml"]
      ["CapCut", "Apps", "configure.ini"] (by decide)
  have d6 : (pinfoPath l).isPrefixOf (appsP l) = false :=
    pfx_l l ["CapCut", "Apps", "ProductInfo.xml"] ["CapCut", "Apps"] (by decide)
  have d7 : ¬ (cfgPath l <+: dlPath l) :=
    not_prefix_l l ["CapCut", "Apps", "configure.ini"]
      ["CapCut", "User Data", "Download"] (by decide)
  have d8 : ¬ (pinfoPath l <+: dlPath l) :=
    not_prefix_l l ["CapCut", "Apps", "ProductInfo.xml"]
      ["CapCut", "User Data", "Download"] (by decide)
  have d9 : ¬ (appsP l <+: dlPath l) :=
    not_prefix_l l ["CapCut", "Apps"] ["CapCut", "User Data", "Download"] (by decide)
  have d10 : ¬ (updPath l <+: dlPath l) :=
    not_prefix_l l ["CapCut", "User Data", "Download", "update.exe"]
      ["CapCut", "User Data", "Download"] (by decide)
  have hcC : entryAt fsC (cfgPath l) = entryAt fsB (cfgPath l) := by
    rw [hCeq, entryAt_addDirsFrom]
    rw [if_neg (fun hc => d7 (by simpa using hc.2.1))]
  have hpC : entryAt fsC (pinfoPath l) = entryAt fsB (pinfoPath l) := by
    rw [hCeq, entryAt_addDirsFrom]
    rw [if_neg (fun hc => d8 (by simpa using hc.2.1))]
  have haC : entryAt fsC (appsP l) = entryAt fsB (appsP l) := by
    rw [hCeq, entryAt_addDirsFrom]
    rw [if_neg (fun hc => d9 (by simpa using hc.2.1))]
  refine ⟨?_, ?_, ?_, ?_, ?_, ?_⟩
  · rw [hDframe _ d1, hcC, hBframe _ d5, hA, entryAt_setE, if_pos rfl]
  · rw [hDframe _ d2, hpC, hBp]
  · exact hDp
  · have hdrop : (pinfoPath l).dropLast = appsP l :=
      dropLast_append_last l ["CapCut", "Apps"] "ProductInfo.xml"
    obtain ⟨b, hb⟩ := hBparent (by rw [hdrop]; exact append_cons_ne_nil l "CapCut" _)
    rw [hdrop] at hb
    refine ⟨b, ?_⟩
    rw [hDframe _ d3, haC, hBframe _ d6]
    exact hb
  · have hcongr1 : hasFileOnPath fsC [] (dlPath l)
        = hasFileOnPath fsB [] (dlPath l) := by
      apply hasFileOnPath_congr
      intro q hq1 hq2 hq3
      unfold isFileAt
      rw [hCeq, entryAt_addDirsFrom]
      by_cases hcond : ([] : FilePath') <+: q ∧ q <+: [] ++ dlPath l
          ∧ q ≠ ([] : FilePath') ∧ entryAt fsB q = none
      · rw [if_pos hcond, hcond.2.2.2]
      · rw [if_neg hcond]
    have hcongr2 : hasFileOnPath fs1 [] (dlPath l)
        = hasFileOnPath fsC [] (dlPath l) := by
      apply hasFileOnPath_congr
      intro q hq1 hq2 hq3
      have hqu : (updPath l).isPrefixOf q = false := by
        cases hb : (updPath l).isPrefixOf q
        · rfl
        · exact absurd ((List.isPrefixOf_iff_prefix.1 hb).trans (by simpa using hq2))
            d10
      unfold isFileAt
      rw [hDframe q hqu]
    rw [hcongr2, hcongr1]
    exact hCfile
  · have hdropu : (updPath l).dropLast = dlPath l :=
      dropLast_append_last l ["CapCut", "User Data", "Download"] "update.exe"
    obtain ⟨b, hb⟩ := hDparent (by rw [hdropu]; exact append_cons_ne_nil l "CapCut" _)
    rw [hdropu] at hb
    refine ⟨b, ?_⟩
    rw [hDframe _ d4]
    exact hb

/-- The state `create_readonly` produces on an existing plain file. -/
def blockerize (fs : FS) (p : FilePath') : FS :=
  attribSetRO (setE (removeEntry (clearROUnder fs p) p) p (.file [] false)) p

theorem entryAt_blockerize_self (fs : FS) (p : FilePath') :
    entryAt (blockerize fs p) p = some (.file [] true) := by
  unfold blockerize
  rw [entryAt_attribSetRO, entryAt_setE, if_pos rfl]
  simp [setRONode]

theorem entryAt_blockerize_other (fs : FS) (p q : FilePath')
    (hq : p.isPrefixOf q = false) :
    entryAt (blockerize fs p) q = entryAt fs q := by
  have hqp : q ≠ p := fun hh => by
    rw [hh, isPrefixOf_self] at hq; exact Bool.noConfusion hq
  unfold blockerize
  rw [entryAt_attribSetRO, entryAt_setE, if_neg hqp, entryAt_removeEntry,
    if_neg hqp, entryAt_clearROUnder, hq]
  cases entryAt fs q <;> simp [hqp]

theorem entryAt_setE_ne (fs : FS) (p : FilePath') (n : Node) (q : FilePath')
    (h : q ≠ p) : entryAt (setE fs p n) q = entryAt fs q := by
  rw [entryAt_setE, if_neg h]

theorem isPrefixOf_false_of_not_le {X q dl : FilePath'} (hnd : ¬ (X <+: dl))
    (hq : q <+: dl) : X.isPrefixOf q = false := by
  cases hb : X.isPrefixOf q
  · rfl
  · exact absurd ((List.isPrefixOf_iff_prefix.1 hb).trans hq) hnd

theorem entryAt_addDirs_not_pfx {fs : FS} {dl q : FilePath'}
    (h : ¬ (q <+: dl)) : entryAt (addDirsFrom fs [] dl) q = entryAt fs q := by
  rw [entryAt_addDirsFrom]
  rw [if_neg (fun hc => h (by simpa using hc.2.1))]

theorem entryAt_addDirs_of_some {fs : FS} {dl q : FilePath'} {n : Node}
    (h : entryAt fs q = some n) : entryAt (addDirsFrom fs [] dl) q = some n := by
  rw [entryAt_addDirsFrom]
  rw [if_neg (fun hc => by rw [h] at hc; exact Option.noConfusion hc.2.2.2)]
  exact h

theorem hasFileOnPath_addDirs (fs : FS) (dl : FilePath') :
    hasFileOnPath (addDirsFrom fs [] dl) [] dl = hasFileOnPath fs [] dl := by
  apply hasFileOnPath_congr
  intro q hq1 hq2 hq3
  unfold isFileAt
  rw [entryAt_addDirsFrom]
  by_cases hcond : ([] : FilePath') <+: q ∧ q <+: [] ++ dl
      ∧ q ≠ ([] : FilePath') ∧ entryAt fs q = none
  · rw [if_pos hcond, hcond.2.2.2]
  · rw [if_neg hcond]

theorem hasFileOnPath_blockerize (fs : FS) (p dl : FilePath')
    (hnd : ¬ (p <+: dl)) :
    hasFileOnPath (blockerize fs p) [] dl = hasFileOnPath fs [] dl := by
  apply hasFileOnPath_congr
  intro q hq1 hq2 hq3
  unfold isFileAt
  rw [entryAt_blockerize_other fs p q
    (isPrefixOf_false_of_not_le hnd (by simpa using hq2))]

theorem hasFileOnPath_setE (fs : FS) (p : FilePath') (n : Node) (dl : FilePath')
    (hnd : ¬ (p <+: dl)) :
    hasFileOnPath (setE fs p n) [] dl = hasFileOnPath fs [] dl := by
  apply hasFileOnPath_congr
  intro q hq1 hq2 hq3
  unfold isFileAt
  rw [entryAt_setE_ne fs p n q]
  intro hh
  exact absurd (List.prefix_rfl.trans (hh ▸ (by simpa using hq2))) hnd

/-! ### Composition and extraction for the two apply commands -/

theorem apply_with_options_true_eq {l : FilePath'} {fs fsA fs1 : FS}
    (hlock : lock_configuration fs (appsPathOf l) = (fsA, none))
    (hdum : create_dummy_files fsA (parentOrSelf (appsPathOf l)) (appsPathOf l)
      = (fs1, none)) :
    apply_protection_with_options ⟨some l⟩ true true fs
      = (⟨true, none,
          ["Modifying config...", "[OK] Configuration locked",
           "Creating blockers...", "[OK] Update blockers created"]⟩, fs1) := by
  unfold apply_protection_with_options
  dsimp only
  rw [hlock]
  show (match create_dummy_files fsA (parentOrSelf (appsPathOf l)) (appsPathOf l) with
    | (fs2, some e) => ((⟨false, some e,
        ["Modifying config...", "[OK] Configuration locked"]
          ++ ["Creating blockers..."]⟩ : ProtectionResult), fs2)
    | (fs2, none) => (⟨true, none,
        ["Modifying config...", "[OK] Configuration locked"]
          ++ ["Creating blockers...", "[OK] Update blockers created"]⟩, fs2)) = _
  rw [hdum]
  rfl

theorem apply_with_options_lock_err {l : FilePath'} {fs fsA : FS} {e : String}
    (hlock : lock_configuration fs (appsPathOf l) = (fsA, some e)) :
    apply_protection_with_options ⟨some l⟩ true true fs
      = (⟨false, some e, ["Modifying config..."]⟩, fsA) := by
  unfold apply_protection_with_options
  dsimp only
  rw [hlock]
  rfl

theorem apply_with_options_dum_err {l : FilePath'} {fs fsA fs2 : FS} {e : String}
    (hlock : lock_configuration fs (appsPathOf l) = (fsA, none))
    (hdum : create_dummy_files fsA (parentOrSelf (appsPathOf l)) (appsPathOf l)
      = (fs2, some e)) :
    apply_protection_with_options ⟨some l⟩ true true fs
      = (⟨false, some e,
          ["Modifying config...", "[OK] Configuration locked",
           "Creating blockers..."]⟩, fs2) := by
  unfold apply_protection_with_options
  dsimp only
  rw [hlock]
  show (match create_dummy_files fsA (parentOrSelf (appsPathOf l)) (appsPathOf l) with
    | (fs2, some e) => ((⟨false, some e,
        ["Modifying config...", "[OK] Configuration locked"]
          ++ ["Creating blockers..."]⟩ : ProtectionResult), fs2)
    | (fs2, none) => (⟨true, none,
        ["Modifying config...", "[OK] Configuration locked"]
          ++ ["Creating blockers...", "[OK] Update blockers created"]⟩, fs2)) = _
  rw [hdum]
  rfl

theorem apply_with_options_true_ok {l : FilePath'} {fs : FS}
    (hs : (apply_protection_with_options ⟨some l⟩ true true fs).1.success = true) :
    ∃ fsA fs1, lock_configuration fs (appsPathOf l) = (fsA, none)
      ∧ create_dummy_files fsA (parentOrSelf (appsPathOf l)) (appsPathOf l)
          = (fs1, none)
      ∧ (apply_protection_with_options ⟨some l⟩ true true fs).2 = fs1 := by
  cases h1 : lock_configuration fs (appsPathOf l) with
  | mk fsA r1 =>
    cases r1 with
    | some e =>
      rw [apply_with_options_lock_err h1] at hs
      exact absurd hs (by simp)
    | none =>
      cases h2 : create_dummy_files fsA (parentOrSelf (appsPathOf l))
          (appsPathOf l) with
      | mk fs1 r2 =>
        cases r2 with
        | some e =>
          rw [apply_with_options_dum_err h1 h2] at hs
          exact absurd hs (by simp)
        | none =>
          refine ⟨fsA, fs1, rfl, h2, ?_⟩
          rw [apply_with_options_true_eq h1 h2]

theorem apply_protection_eq {l : FilePath'} {fs fsA fs1 : FS}
    (hlock : lock_configuration fs (appsPathOf l) = (fsA, none))
    (hdum : create_dummy_files fsA (parentOrSelf (appsPathOf l)) (appsPathOf l)
      = (fs1, none)) :
    apply_protection ⟨some l⟩ fs
      = (⟨true, none,
          ["Modifying config...", "[OK] Configuration locked",
           "Creating blockers...", "[OK] Update blockers created"]⟩, fs1) := by
  unfold apply_protection
  dsimp only
  rw [hlock]
  show (match create_dummy_files fsA (parentOrSelf (appsPathOf l)) (appsPathOf l) with
    | (fs2, some e) => ((⟨false, some e,
        ["Modifying config...", "[OK] Configuration locked",
         "Creating blockers..."]⟩ : ProtectionResult), fs2)
    | (fs2, none) => (⟨true, none,
        ["Modifying config...", "[OK] Configuration locked",
         "Creating blockers...", "[OK] Update blockers created"]⟩, fs2)) = _
  rw [hdum]

theorem apply_protection_lock_err {l : FilePath'} {fs fsA : FS} {e : String}
    (hlock : lock_configuration fs (appsPathOf l) = (fsA, some e)) :
    apply_protection ⟨some l⟩ fs
      = (⟨false, some e, ["Modifying config..."]⟩, fsA) := by
  unfold apply_protection
  dsimp only
  rw [hlock]

theorem apply_protection_dum_err {l : FilePath'} {fs fsA fs2 : FS} {e : String}
    (hlock : lock_configuration fs (appsPathOf l) = (fsA, none))
    (hdum : create_dummy_files fsA (parentOrSelf (appsPathOf l)) (appsPathOf l)
      = (fs2, some e)) :
    apply_protection ⟨some l⟩ fs
      = (⟨false, some e,
          ["Modifying config...", "[OK] Configuration locked",
           "Creating blockers..."]⟩, fs2) := by
  unfold apply_protection
  dsimp only
  rw [hlock]
  show (match create_dummy_files fsA (parentOrSelf (appsPathOf l)) (appsPathOf l) with
    | (fs2, some e) => ((⟨false, some e,
        ["Modifying config...", "[OK] Configuration locked",
         "Creating blockers..."]⟩ : ProtectionResult), fs2)
    | (fs2, none) => (⟨true, none,
        ["Modifying config...", "[OK] Configuration locked",
         "Creating blockers...", "[OK] Update blockers created"]⟩, fs2)) = _
  rw [hdum]

theorem apply_protection_ok {l : FilePath'} {fs : FS}
    (hs : (apply_protection ⟨some l⟩ fs).1.success = true) :
    ∃ fsA fs1, lock_configuration fs (appsPathOf l) = (fsA, none)
      ∧ create_dummy_files fsA (parentOrSelf (appsPathOf l)) (appsPathOf l)
          = (fs1, none)
      ∧ (apply_protection ⟨some l⟩ fs).2 = fs1 := by
  cases h1 : lock_configuration fs (appsPathOf l) with
  | mk fsA r1 =>
    cases r1 with
    | some e =>
      rw [apply_protection_lock_err h1] at hs
      exact absurd hs (by simp)
    | none =>
      cases h2 : create_dummy_files fsA (parentOrSelf (appsPathOf l))
          (appsPathOf l) with
      | mk fs1 r2 =>
        cases r2 with
        | some e =>
          rw [apply_protection_dum_err h1 h2] at hs
          exact absurd hs (by simp)
        | none =>
          refine ⟨fsA, fs1, rfl, h2, ?_⟩
          rw [apply_protection_eq h1 h2]

theorem protected_apply_again (l : FilePath') (fs1 : FS) (c0 : List Char)
    (h : ProtectedState l fs1 c0) :
    ∃ fs2, apply_protection_with_options ⟨some l⟩ true true fs1
        = (⟨true, none,
            ["Modifying config...", "[OK] Configuration locked",
             "Creating blockers...", "[OK] Update blockers created"]⟩, fs2)
      ∧ ProtectedState l fs2 (lockTransform c0) := by
  obtain ⟨hcfg, hpin, hupd, ⟨ba, happs⟩, hfile, ⟨bd, hdl⟩⟩ := h
  have hpinfo_ne : pinfoPath l ≠ [] := append_cons_ne_nil l "CapCut" _
  have hupd_ne : updPath l ≠ [] := append_cons_ne_nil l "CapCut" _
  have n1 : pinfoPath l ≠ cfgPath l := ne_of_isPrefixOf_false
    (pfx_l l ["CapCut", "Apps", "ProductInfo.xml"]
      ["CapCut", "Apps", "configure.ini"] (by decide))
  have n2 : updPath l ≠ cfgPath l := ne_of_isPrefixOf_false
    (pfx_l l ["CapCut", "User Data", "Download", "update.exe"]
      ["CapCut", "Apps", "configure.ini"] (by decide))
  have n3 : appsP l ≠ cfgPath l := Ne.symm (ne_of_isPrefixOf_false
    (pfx_l l ["CapCut", "Apps", "configure.ini"] ["CapCut", "Apps"] (by decide)))
  have n4 : dlPath l ≠ cfgPath l := ne_of_isPrefixOf_false
    (pfx_l l ["CapCut", "User Data", "Download"]
      ["CapCut", "Apps", "configure.ini"] (by decide))
  have d1 : (updPath l).isPrefixOf (cfgPath l) = false :=
    pfx_l l ["CapCut", "User Data", "Download", "update.exe"]
      ["CapCut", "Apps", "configure.ini"] (by decide)
  have d2 : (updPath l).isPrefixOf (pinfoPath l) = false :=
    pfx_l l ["CapCut", "User Data", "Download", "update.exe"]
      ["CapCut", "Apps", "ProductInfo.xml"] (by decide)
  have d3 : (updPath l).isPrefixOf (appsP l) = false :=
    pfx_l l ["CapCut", "User Data", "Download", "update.exe"]
      ["CapCut", "Apps"] (by decide)
  have d4 : (updPath l).isPrefixOf (dlPath l) = false :=
    pfx_l l ["CapCut", "User Data", "Download", "update.exe"]
      ["CapCut", "User Data", "Download"] (by decide)
  have d5 : (pinfoPath l).isPrefixOf (cfgPath l) = false :=
    pfx_l l ["CapCut", "Apps", "ProductInfo.xml"]
      ["CapCut", "Apps", "configure.ini"] (by decide)
  have d6 : (pinfoPath l).isPrefixOf (appsP l) = false :=
    pfx_l l ["CapCut", "Apps", "ProductInfo.xml"] ["CapCut", "Apps"] (by decide)
  have d6b : (pinfoPath l).isPrefixOf (updPath l) = false :=
    pfx_l l ["CapCut", "Apps", "ProductInfo.xml"]
      ["CapCut", "User Data", "Download", "update.exe"] (by decide)
  have d6c : (pinfoPath l).isPrefixOf (dlPath l) = false :=
    pfx_l l ["CapCut", "Apps", "ProductInfo.xml"]
      ["CapCut", "User Data", "Download"] (by decide)
  have d7 : ¬ (cfgPath l <+: dlPath l) :=
    not_prefix_l l ["CapCut", "Apps", "configure.ini"]
      ["CapCut", "User Data", "Download"] (by decide)
  have d8 : ¬ (pinfoPath l <+: dlPath l) :=
    not_prefix_l l ["CapCut", "Apps", "ProductInfo.xml"]
      ["CapCut", "User Data", "Download"] (by decide)
  have d9 : ¬ (appsP l <+: dlPath l) :=
    not_prefix_l l ["CapCut", "Apps"] ["CapCut", "User Data", "Download"] (by decide)
  have d10 : ¬ (updPath l <+: dlPath l) :=
    not_prefix_l l ["CapCut", "User Data", "Download", "update.exe"]
      ["CapCut", "User Data", "Download"] (by decide)
  have hdropp : (pinfoPath l).dropLast = appsP l :=
    dropLast_append_last l ["CapCut", "Apps"] "ProductInfo.xml"
  have hdropu : (updPath l).dropLast = dlPath l :=
    dropLast_append_last l ["CapCut", "User Data", "Download"] "update.exe"
  -- step 1: lock the configuration again
  have hcfg' : entryAt fs1 (appsPathOf l ++ ["configure.ini"])
      = some (.file (lockTransform c0) false) := by rw [cfg_norm]; exact hcfg
  have hlock2 := lock_configuration_on_file hcfg'
  rw [cfg_norm] at hlock2
  -- facts after the config write
  have hpinA : entryAt (setE fs1 (cfgPath l)
      (.file (lockTransform (lockTransform c0)) false)) (pinfoPath l)
      = some (.file [] true) := by
    rw [entryAt_setE_ne _ _ _ _ n1]; exact hpin
  have hupdA : entryAt (setE fs1 (cfgPath l)
      (.file (lockTransform (lockTransform c0)) false)) (updPath l)
      = some (.file [] true) := by
    rw [entryAt_setE_ne _ _ _ _ n2]; exact hupd
  have happsA : entryAt (setE fs1 (cfgPath l)
      (.file (lockTransform (lockTransform c0)) false)) (appsP l)
      = some (.dir ba) := by
    rw [entryAt_setE_ne _ _ _ _ n3]; exact happs
  have hdlA : entryAt (setE fs1 (cfgPath l)
      (.file (lockTransform (lockTransform c0)) false)) (dlPath l)
      = some (.dir bd) := by
    rw [entryAt_setE_ne _ _ _ _ n4]; exact hdl
  have hcfgA : entryAt (setE fs1 (cfgPath l)
      (.file (lockTransform (lockTransform c0)) false)) (cfgPath l)
      = some (.file (lockTransform (lockTransform c0)) false) := by
    rw [entryAt_setE, if_pos rfl]
  have hfileA : hasFileOnPath (setE fs1 (cfgPath l)
      (.file (lockTransform (lockTransform c0)) false)) [] (dlPath l) = false := by
    rw [hasFileOnPath_setE _ _ _ _ d7]; exact hfile
  -- step 2: recreate the ProductInfo.xml blocker
  have hB2 : create_readonly (setE fs1 (cfgPath l)
      (.file (lockTransform (lockTransform c0)) false)) (pinfoPath l)
      = (blockerize (setE fs1 (cfgPath l)
          (.file (lockTransform (lockTransform c0)) false)) (pinfoPath l), none) :=
    create_readonly_on_file hpinfo_ne hpinA (by rw [hdropp]; exact happsA)
  -- abbreviate the two intermediate states
  generalize hA : setE fs1 (cfgPath l) (.file (lockTransform (lockTransform c0)) false) = fsA2 at hlock2 hpinA hupdA happsA hdlA hcfgA hfileA hB2
  have hpinB : entryAt (blockerize fsA2 (pinfoPath l)) (pinfoPath l)
      = some (.file [] true) := entryAt_blockerize_self _ _
  have hcfgB : entryAt (blockerize fsA2 (pinfoPath l)) (cfgPath l)
      = some (.file (lockTransform (lockTransform c0)) false) := by
    rw [entryAt_blockerize_other _ _ _ d5]; exact hcfgA
  have hupdB : entryAt (blockerize fsA2 (pinfoPath l)) (updPath l)
      = some (.file [] true) := by
    rw [entryAt_blockerize_other _ _ _ d6b]; exact hupdA
  have happsB : entryAt (blockerize fsA2 (pinfoPath l)) (appsP l)
      = some (.dir ba) := by
    rw [entryAt_blockerize_other _ _ _ d6]; exact happsA
  have hdlB : entryAt (blockerize fsA2 (pinfoPath l)) (dlPath l)
      = some (.dir bd) := by
    rw [entryAt_blockerize_other _ _ _ d6c]; exact hdlA
  have hfileB : hasFileOnPath (blockerize fsA2 (pinfoPath l)) [] (dlPath l)
      = false := by
    rw [hasFileOnPath_blockerize _ _ _ d8]; exact hfileA
  generalize hBgen : blockerize fsA2 (pinfoPath l) = fsB2 at hB2 hpinB hcfgB hupdB happsB hdlB hfileB
  -- step 3: ensure the download directory
  have hC2 : mkdirAllR fsB2 (dlPath l) = (addDirsFrom fsB2 [] (dlPath l), none) := by
    unfold mkdirAllR
    rw [if_neg (by rw [hfileB]; exact fun hh => Bool.noConfusion hh)]
  have hcfgC : entryAt (addDirsFrom fsB2 [] (dlPath l)) (cfgPath l)
      = some (.file (lockTransform (lockTransform c0)) false) := by
    rw [entryAt_addDirs_not_pfx d7]; exact hcfgB
  have hpinC : entryAt (addDirsFrom fsB2 [] (dlPath l)) (pinfoPath l)
      = some (.file [] true) := by
    rw [entryAt_addDirs_not_pfx d8]; exact hpinB
  have hupdC : entryAt (addDirsFrom fsB2 [] (dlPath l)) (updPath l)
      = some (.file [] true) := by
    rw [entryAt_addDirs_not_pfx d10]; exact hupdB
  have happsC : entryAt (addDirsFrom fsB2 [] (dlPath l)) (appsP l)
      = some (.dir ba) := by
    rw [entryAt_addDirs_not_pfx d9]; exact happsB
  have hdlC : entryAt (addDirsFrom fsB2 [] (dlPath l)) (dlPath l)
      = some (.dir bd) := entryAt_addDirs_of_some hdlB
  have hfileC : hasFileOnPath (addDirsFrom fsB2 [] (dlPath l)) [] (dlPath l)
      = false := by
    rw [hasFileOnPath_addDirs]; exact hfileB
  generalize hCgen : addDirsFrom fsB2 [] (dlPath l) = fsC2 at hC2 hcfgC hpinC hupdC happsC hdlC hfileC
  -- step 4: recreate the update.exe blocker
  have hD2 : create_readonly fsC2 (updPath l)
      = (blockerize fsC2 (updPath l), none) :=
    create_readonly_on_file hupd_ne hupdC (by rw [hdropu]; exact hdlC)
  refine ⟨blockerize fsC2 (updPath l), ?_, ?_⟩
  · -- assemble the command result
    have hdum2 : create_dummy_files fsA2 (parentOrSelf (appsPathOf l))
        (appsPathOf l) = (blockerize fsC2 (updPath l), none) := by
      unfold create_dummy_files
      rw [pinfo_norm, hB2]
      show (match mkdirAllR fsB2 (parentOrSelf (appsPathOf l)
          ++ ["User Data", "Download"]) with
        | (fs2, some e) => (fs2, some e)
        | (fs2, none) => create_readonly fs2 (parentOrSelf (appsPathOf l)
            ++ ["User Data", "Download", "update.exe"])) = _
      rw [dl_norm, hC2]
      show create_readonly fsC2 (parentOrSelf (appsPathOf l)
          ++ ["User Data", "Download", "update.exe"]) = _
      rw [upd_norm, hD2]
    exact apply_with_options_true_eq hlock2 hdum2
  · refine ⟨?_, ?_, ?_, ⟨ba, ?_⟩, ?_, ⟨bd, ?_⟩⟩
    · rw [entryAt_blockerize_other _ _ _ d1]; exact hcfgC
    · rw [entryAt_blockerize_other _ _ _ d2]; exact hpinC
    · exact entryAt_blockerize_self _ _
    · rw [entryAt_blockerize_other _ _ _ d3]; exact happsC
    · rw [hasFileOnPath_blockerize _ _ _ d10]; exact hfileC
    · rw [entryAt_blockerize_other _ _ _ d4]; exact hdlC

def c1FS : FS :=
  [(["home"], .dir false), (["home", "CapCut"], .dir false),
   (["home", "CapCut", "Apps"], .dir false),
   (["home", "CapCut", "Apps", "configure.ini"], .file "a=1".data false)]

def c1ceFS : FS :=
  [(["home"], .dir false), (["home", "CapCut"], .dir false),
   (["home", "CapCut", "Apps"], .dir false),
   (["home", "CapCut", "Apps", "configure.ini"],
     .file "last_version=x\n\n".data false)]

/-- C1: idempotence of protection, corrected with a stability proviso. If
    `apply_protection_with_options` with both options enabled succeeds on `fs`
    and the config content read from `fs` is lock-stable (no line ends in a
    bare carriage return and the line list does not end in an empty line),
    then a second application also succeeds, the config file is byte-identical
    after the second application, and both blocker files
    (`Apps/ProductInfo.xml` and `User Data/Download/update.exe`) are zero-byte
    read-only files after either one or two applications. Without the proviso
    the claim is false: see the counterexample. -/
theorem apply_protection_with_options_idempotent (l : FilePath') (fs : FS)
    (hs : (apply_protection_with_options ⟨some l⟩ true true fs).1.success = true)
    (hst : lockStableContent (configReadContent fs (cfgPath l))) :
    ((apply_protection_with_options ⟨some l⟩ true true
        (apply_protection_with_options ⟨some l⟩ true true fs).2).1.success = true)
    ∧ readFile (apply_protection_with_options ⟨some l⟩ true true
          (apply_protection_with_options ⟨some l⟩ true true fs).2).2 (cfgPath l)
        = readFile (apply_protection_with_options ⟨some l⟩ true true fs).2 (cfgPath l)
    ∧ entryAt (apply_protection_with_options ⟨some l⟩ true true
          (apply_protection_with_options ⟨some l⟩ true true fs).2).2 (pinfoPath l)
        = some (.file [] true)
    ∧ entryAt (apply_protection_with_options ⟨some l⟩ true true
          (apply_protection_with_options ⟨some l⟩ true true fs).2).2 (updPath l)
        = some (.file [] true)
    ∧ entryAt (apply_protection_with_options ⟨some l⟩ true true fs).2 (pinfoPath l)
        = some (.file [] true)
    ∧ entryAt (apply_protection_with_options ⟨some l⟩ true true fs).2 (updPath l)
        = some (.file [] true) := by
  obtain ⟨fsA, fs1, hlock, hdum, hfs1⟩ := apply_with_options_true_ok hs
  have hP : ProtectedState l fs1 (configReadContent fs (cfgPath l)) :=
    apply_steps_protected l fs fsA fs1 hlock hdum
  obtain ⟨fs2, happ2, hP2⟩ := protected_apply_again l fs1 _ hP
  rw [hfs1, happ2]
  obtain ⟨hcfg1, hpin1, hupd1, -, -, -⟩ := hP
  obtain ⟨hcfg2, hpin2, hupd2, -, -, -⟩ := hP2
  have hr2 : readFile fs2 (cfgPath l)
      = some (lockTransform (lockTransform (configReadContent fs (cfgPath l)))) := by
    unfold readFile; rw [hcfg2]
  have hr1 : readFile fs1 (cfgPath l)
      = some (lockTransform (configReadContent fs (cfgPath l))) := by
    unfold readFile; rw [hcfg1]
  refine ⟨rfl, ?_, hpin2, hupd2, hpin1, hupd1⟩
  show readFile fs2 (cfgPath l) = readFile fs1 (cfgPath l)
  rw [hr2, hr1, lockTransform_stable hst]

/-- C1 counterexample: on a configuration file whose content ends in a blank
    line, applying protection twice changes the config file bytes relative to
    applying it once, refuting unconditional idempotence. -/
theorem apply_protection_idempotence_counterexample :
    ((apply_protection_with_options ⟨some ["home"]⟩ true true c1ceFS).1.success = true)
    ∧ ((apply_protection_with_options ⟨some ["home"]⟩ true true
        (apply_protection_with_options ⟨some ["home"]⟩ true true c1ceFS).2).1.success
          = true)
    ∧ readFile (apply_protection_with_options ⟨some ["home"]⟩ true true
          (apply_protection_with_options ⟨some ["home"]⟩ true true c1ceFS).2).2
          (cfgPath ["home"])
        ≠ readFile (apply_protection_with_options ⟨some ["home"]⟩ true true c1ceFS).2
          (cfgPath ["home"]) := by decide

/-- Witness for the C1 theorem at a concrete filesystem. -/
theorem apply_protection_with_options_idempotent_witness :
    ((apply_protection_with_options ⟨some ["home"]⟩ true true c1FS).1.success = true)
    ∧ lockStableContent (configReadContent c1FS (cfgPath ["home"]))
    ∧ readFile (apply_protection_with_options ⟨some ["home"]⟩ true true
          (apply_protection_with_options ⟨some ["home"]⟩ true true c1FS).2).2
          (cfgPath ["home"])
        = readFile (apply_protection_with_options ⟨some ["home"]⟩ true true c1FS).2
          (cfgPath ["home"]) :=
  ⟨by decide, by decide,
    (apply_protection_with_options_idempotent ["home"] c1FS (by decide)
      (by decide)).2.1⟩

/-! ### Removal after a successful apply (round trip) -/

theorem entryAt_removeBlocker {fs : FS} {p : FilePath'} (q : FilePath')
    (hne : q ≠ p) (hpre : p.isPrefixOf q = false) :
    entryAt (removeEntry (clearROUnder fs p) p) q = entryAt fs q := by
  rw [entryAt_removeEntry, if_neg hne, entryAt_clearROUnder]
  cases entryAt fs q with
  | none => rfl
  | some n => simp [hpre]

theorem remove_protection_eq (l : FilePath') (fs : FS) :
    remove_protection ⟨some l⟩ fs
      = (⟨true, none,
          (removeBlockerStep fs (appsPathOf l ++ ["ProductInfo.xml"])
            "Removing ProductInfo.xml blocker..."
            "[OK] ProductInfo.xml blocker removed"
            "[!] Could not remove ProductInfo.xml: ").2
          ++ (removeBlockerStep (removeBlockerStep fs
                (appsPathOf l ++ ["ProductInfo.xml"])
                "Removing ProductInfo.xml blocker..."
                "[OK] ProductInfo.xml blocker removed"
                "[!] Could not remove ProductInfo.xml: ").1
              (parentOrSelf (appsPathOf l) ++ ["User Data", "Download", "update.exe"])
              "Removing update.exe blocker..." "[OK] update.exe blocker removed"
              "[!] Could not remove update.exe: ").2
          ++ (configResetStep (removeBlockerStep (removeBlockerStep fs
                (appsPathOf l ++ ["ProductInfo.xml"])
                "Removing ProductInfo.xml blocker..."
                "[OK] ProductInfo.xml blocker removed"
                "[!] Could not remove ProductInfo.xml: ").1
              (parentOrSelf (appsPathOf l) ++ ["User Data", "Download", "update.exe"])
              "Removing update.exe blocker..." "[OK] update.exe blocker removed"
              "[!] Could not remove update.exe: ").1
              (appsPathOf l ++ ["configure.ini"])).2
          ++ ["[OK] Protection removed - CapCut can now auto-update"]⟩,
         (configResetStep (removeBlockerStep (removeBlockerStep fs
              (appsPathOf l ++ ["ProductInfo.xml"])
              "Removing ProductInfo.xml blocker..."
              "[OK] ProductInfo.xml blocker removed"
              "[!] Could not remove ProductInfo.xml: ").1
            (parentOrSelf (appsPathOf l) ++ ["User Data", "Download", "update.exe"])
            "Removing update.exe blocker..." "[OK] update.exe blocker removed"
            "[!] Could not remove update.exe: ").1
            (appsPathOf l ++ ["configure.ini"])).1) := rfl

theorem remove_after_protected (l : FilePath') (fs1 : FS) (c0 : List Char)
    (hP : ProtectedState l fs1 c0) :
    ∃ fs3, remove_protection ⟨some l⟩ fs1
        = (⟨true, none,
            ["Removing ProductInfo.xml blocker...",
             "[OK] ProductInfo.xml blocker removed",
             "Removing update.exe blocker...", "[OK] update.exe blocker removed",
             "Resetting configure.ini...", "[OK] configure.ini reset",
             "[OK] Protection removed - CapCut can now auto-update"]⟩, fs3)
      ∧ entryAt fs3 (cfgPath l)
          = some (.file (joinNL ((rustLines (lockTransform c0)).filter
              (fun line => !(isLockKeyLine line)))) false)
      ∧ entryAt fs3 (pinfoPath l) = none
      ∧ entryAt fs3 (updPath l) = none := by
  obtain ⟨hcfg, hpin, hupd, -, -, -⟩ := hP
  have d1 : (updPath l).isPrefixOf (cfgPath l) = false :=
    pfx_l l ["CapCut", "User Data", "Download", "update.exe"]
      ["CapCut", "Apps", "configure.ini"] (by decide)
  have d2 : (updPath l).isPrefixOf (pinfoPath l) = false :=
    pfx_l l ["CapCut", "User Data", "Download", "update.exe"]
      ["CapCut", "Apps", "ProductInfo.xml"] (by decide)
  have d5 : (pinfoPath l).isPrefixOf (cfgPath l) = false :=
    pfx_l l ["CapCut", "Apps", "ProductInfo.xml"]
      ["CapCut", "Apps", "configure.ini"] (by decide)
  have d6b : (pinfoPath l).isPrefixOf (updPath l) = false :=
    pfx_l l ["CapCut", "Apps", "ProductInfo.xml"]
      ["CapCut", "User Data", "Download", "update.exe"] (by decide)
  have d11 : (cfgPath l).isPrefixOf (pinfoPath l) = false :=
    pfx_l l ["CapCut", "Apps", "configure.ini"]
      ["CapCut", "Apps", "ProductInfo.xml"] (by decide)
  have d12 : (cfgPath l).isPrefixOf (updPath l) = false :=
    pfx_l l ["CapCut", "Apps", "configure.ini"]
      ["CapCut", "User Data", "Download", "update.exe"] (by decide)
  have ncp : cfgPath l ≠ pinfoPath l := ne_of_isPrefixOf_false d11
  have ncu : cfgPath l ≠ updPath l := ne_of_isPrefixOf_false d12
  have nup : updPath l ≠ pinfoPath l := ne_of_isPrefixOf_false d2
  have npu : pinfoPath l ≠ updPath l := ne_of_isPrefixOf_false d6b
  have npc : pinfoPath l ≠ cfgPath l := ne_of_isPrefixOf_false d5
  have nuc : updPath l ≠ cfgPath l := ne_of_isPrefixOf_false d1
  -- step 1: remove the ProductInfo.xml blocker
  have h1 : removeBlockerStep fs1 (pinfoPath l)
      "Removing ProductInfo.xml blocker..." "[OK] ProductInfo.xml blocker removed"
      "[!] Could not remove ProductInfo.xml: "
      = (removeEntry (clearROUnder fs1 (pinfoPath l)) (pinfoPath l),
         ["Removing ProductInfo.xml blocker...",
          "[OK] ProductInfo.xml blocker removed"]) :=
    removeBlockerStep_on_file hpin _ _ _
  have hupdR1 : entryAt (removeEntry (clearROUnder fs1 (pinfoPath l)) (pinfoPath l))
      (updPath l) = some (.file [] true) := by
    rw [entryAt_removeBlocker _ nup d6b]; exact hupd
  have hcfgR1 : entryAt (removeEntry (clearROUnder fs1 (pinfoPath l)) (pinfoPath l))
      (cfgPath l) = some (.file (lockTransform c0) false) := by
    rw [entryAt_removeBlocker _ ncp d5]; exact hcfg
  have hpinR1 : entryAt (removeEntry (clearROUnder fs1 (pinfoPath l)) (pinfoPath l))
      (pinfoPath l) = none := by
    rw [entryAt_removeEntry, if_pos rfl]
  generalize hR1 : removeEntry (clearROUnder fs1 (pinfoPath l)) (pinfoPath l) = fsR1 at h1 hupdR1 hcfgR1 hpinR1
  -- step 2: remove the update.exe blocker
  have h2 : removeBlockerStep fsR1 (updPath l)
      "Removing update.exe blocker..." "[OK] update.exe blocker removed"
      "[!] Could not remove update.exe: "
      = (removeEntry (clearROUnder fsR1 (updPath l)) (updPath l),
         ["Removing update.exe blocker...", "[OK] update.exe blocker removed"]) :=
    removeBlockerStep_on_file hupdR1 _ _ _
  have hcfgR2 : entryAt (removeEntry (clearROUnder fsR1 (updPath l)) (updPath l))
      (cfgPath l) = some (.file (lockTransform c0) false) := by
    rw [entryAt_removeBlocker _ ncu d1]; exact hcfgR1
  have hpinR2 : entryAt (removeEntry (clearROUnder fsR1 (updPath l)) (updPath l))
      (pinfoPath l) = none := by
    rw [entryAt_removeBlocker _ npu d2]; exact hpinR1
  have hupdR2 : entryAt (removeEntry (clearROUnder fsR1 (updPath l)) (updPath l))
      (updPath l) = none := by
    rw [entryAt_removeEntry, if_pos rfl]
  generalize hR2 : removeEntry (clearROUnder fsR1 (updPath l)) (updPath l) = fsR2 at h2 hcfgR2 hpinR2 hupdR2
  -- step 3: reset configure.ini
  have h3 : configResetStep fsR2 (cfgPath l)
      = (setE fsR2 (cfgPath l) (.file (joinNL ((rustLines (lockTransform c0)).filter
            (fun line => !(isLockKeyLine line)))) false),
         ["Resetting configure.ini...", "[OK] configure.ini reset"]) :=
    configResetStep_on_file hcfgR2
  refine ⟨setE fsR2 (cfgPath l) (.file (joinNL ((rustLines (lockTransform c0)).filter
      (fun line => !(isLockKeyLine line)))) false), ?_, ?_, ?_, ?_⟩
  · rw [remove_protection_eq, pinfo_norm, upd_norm, cfg_norm, h1]
    dsimp only
    rw [h2]
    dsimp only
    rw [h3]
    rfl
  · rw [entryAt_setE, if_pos rfl]
  · rw [entryAt_setE_ne _ _ _ _ npc]; exact hpinR2
  · rw [entryAt_setE_ne _ _ _ _ nuc]; exact hupdR2

theorem configReset_content_clean {c0 : List Char}
    (hclean : ∀ x ∈ rustLines c0,
      containsSub x sentinelLine = true → isLockKeyLine x = true) :
    containsSub (joinNL ((rustLines (lockTransform c0)).filter
      (fun line => !(isLockKeyLine line)))) sentinelLine = false := by
  have hnl1 : ∀ p ∈ (rustLines (lockTransform c0)).filter
      (fun line => !(isLockKeyLine line)), '\n' ∉ p := by
    intro p hp
    exact mem_rustLines_no_nl _ p (List.mem_of_mem_filter hp)
  rw [containsSub_joinNL sentinelLine sentinel_ne_nil sentinel_no_nl _ hnl1,
    List.any_eq_false]
  intro x hx hcon
  have hcon' : containsSub x sentinelLine = true := hcon
  have hxm : x ∈ rustLines (lockTransform c0) := List.mem_of_mem_filter hx
  have hkx : isLockKeyLine x = false := by
    have hh := List.of_mem_filter hx
    simpa using hh
  have hsplit : splitNL (lockTransform c0) = lockedLines (rustLines c0) := by
    show splitNL (joinNL (lockedLines (rustLines c0))) = _
    exact splitNL_joinNL _ (lockedLines_ne_nil _) (mem_lockedLines_no_nl c0)
  rcases mem_rustLines _ x hxm with ⟨y, hy, hxy⟩
  rw [hsplit] at hy
  rcases mem_lockedLines _ y hy with hys | ⟨hyR, hyk⟩
  · have hxs : x = sentinelLine := by
      rcases hxy with h | h
      · rw [h, hys]
      · rw [h, hys, stripCR_eq_self sentinel_last_ne_cr]
    rw [hxs, isLockKeyLine_sentinel] at hkx
    exact Bool.noConfusion hkx
  · have hcony : containsSub y sentinelLine = true := by
      rcases hxy with h | h
      · rw [← h]; exact hcon'
      · rw [h] at hcon'; exact containsSub_stripCR hcon'
    rw [hclean y hyR hcony] at hyk
    exact Bool.noConfusion hyk

def c2ceFS : FS :=
  [(["home"], .dir false), (["home", "CapCut"], .dir false),
   (["home", "CapCut", "Apps"], .dir false),
   (["home", "CapCut", "Apps", "configure.ini"],
     .file "x last_version=1.0.0.0".data false)]

/-- C2: the round trip, corrected with a cleanliness proviso. If
    `apply_protection` succeeds on `fs` and every line of the original
    config content that contains the sentinel substring
    `last_version=1.0.0.0` is itself a lock-key line (its trimmed form
    starts with `last_version`), then `remove_protection` after
    `apply_protection` leaves a state whose `check_protection_status` is
    `{is_protected := false, config_locked := false, blockers_exist := false}`.
    Without the proviso the claim is false: see the counterexample. -/
theorem apply_remove_round_trip (l : FilePath') (fs : FS)
    (hs : (apply_protection ⟨some l⟩ fs).1.success = true)
    (hclean : ∀ x ∈ rustLines (configReadContent fs (cfgPath l)),
      containsSub x sentinelLine = true → isLockKeyLine x = true) :
    check_protection_status ⟨some l⟩
      (remove_protection ⟨some l⟩ (apply_protection ⟨some l⟩ fs).2).2
      = ⟨false, false, false⟩ := by
  obtain ⟨fsA, fs1, hlock, hdum, hfs1⟩ := apply_protection_ok hs
  have hP : ProtectedState l fs1 (configReadContent fs (cfgPath l)) :=
    apply_steps_protected l fs fsA fs1 hlock hdum
  obtain ⟨fs3, hrem, hcfg3, hpin3, hupd3⟩ :=
    remove_after_protected l fs1 _ hP
  rw [hfs1, hrem]
  show check_protection_status ⟨some l⟩ fs3 = ⟨false, false, false⟩
  have hpe : (pinfoPath l).isEmpty = false := append_cons_isEmpty_false l "CapCut" _
  have hue : (updPath l).isEmpty = false := append_cons_isEmpty_false l "CapCut" _
  have hsb1 : specBlockerPresent fs3 (appsPathOf l ++ ["ProductInfo.xml"])
      = false := by
    rw [pinfo_norm]
    unfold specBlockerPresent pathExists
    rw [hpin3, hpe]
    rfl
  have hsb2 : specBlockerPresent fs3
      (parentOrSelf (appsPathOf l) ++ ["User Data", "Download", "update.exe"])
      = false := by
    rw [upd_norm]
    unfold specBlockerPresent pathExists
    rw [hupd3, hue]
    rfl
  have hcl : specConfigLocked fs3 (appsPathOf l ++ ["configure.ini"]) = false := by
    rw [cfg_norm]
    unfold specConfigLocked
    rw [pathExists_of_entry hcfg3]
    have hrf : readFile fs3 (cfgPath l)
        = some (joinNL ((rustLines (lockTransform
            (configReadContent fs (cfgPath l)))).filter
            (fun line => !(isLockKeyLine line)))) := by
      unfold readFile; rw [hcfg3]
    rw [hrf]
    show containsSub (joinNL ((rustLines (lockTransform
        (configReadContent fs (cfgPath l)))).filter
        (fun line => !(isLockKeyLine line)))) sentinelLine = false
    exact configReset_content_clean hclean
  rw [check_protection_status_eval l fs3, hsb1, hsb2, hcl]
  rfl

/-- C2 counterexample: a config whose content mentions the sentinel on a
    non-key line (`x last_version=1.0.0.0`) survives the reset filter, so
    after apply-then-remove the status still reports the config as locked,
    refuting the unconditional round-trip claim. -/
theorem apply_remove_round_trip_counterexample :
    ((apply_protection ⟨some ["home"]⟩ c2ceFS).1.success = true)
    ∧ (check_protection_status ⟨some ["home"]⟩
        (remove_protection ⟨some ["home"]⟩
          (apply_protection ⟨some ["home"]⟩ c2ceFS).2).2).config_locked
      = true := by decide

/-- Witness for the C2 theorem at a concrete filesystem. -/
theorem apply_remove_round_trip_witness :
    ((apply_protection ⟨some ["home"]⟩ c1FS).1.success = true)
    ∧ (∀ x ∈ rustLines (configReadContent c1FS (cfgPath ["home"])),
        containsSub x sentinelLine = true → isLockKeyLine x = true)
    ∧ check_protection_status ⟨some ["home"]⟩
        (remove_protection ⟨some ["home"]⟩
          (apply_protection ⟨some ["home"]⟩ c1FS).2).2
      = ⟨false, false, false⟩ :=
  ⟨by decide, by decide,
    apply_remove_round_trip ["home"] c1FS (by decide) (by decide)⟩
